import Mathlib

/-!
Verification development for the `hensan` grammar-driven transpiler.

The Rust sources (`src/ast.rs`, `src/meta_parser.rs`, `src/parser.rs`,
`src/generator.rs`) are shallowly embedded below.  Conventions:

* Rust `String` positions are byte offsets; the embedding models the input
  as `List Char` with character-index positions (the two coincide on the
  ASCII inputs used in concrete evaluations; where the byte/character
  distinction is semantically relevant, e.g. `get_found_text`, the UTF-8
  byte length is computed explicitly).
* The Rust `Vec<usize>` indent stack has its top at the end; the embedding
  uses a `List Nat` whose HEAD is the top of the stack.
* `HashMap<String, Vec<ASTNode>>` children maps are modelled as ordered
  association lists (`List (String × List ASTNode)`); keys are unique by
  construction and per-key order is the insertion order, as in Rust.
* Recursive parsing/generation functions take a fuel parameter; a result
  of `none` means the fuel ran out, i.e. the Rust code has not returned
  yet (for unbounded fuel: it diverges).  A result `some (r, p)` is a
  genuine return value `r` together with the final mutable state `p`.
-/

namespace Hensan

/-- AST node (`src/ast.rs`, `struct ASTNode`): a rule name, a captured
value, and an ordered map from child rule names to lists of children. -/
inductive ASTNode where
  | mk (name : String) (value : String) (children : List (String × List ASTNode))

/-- Rule name of a node. -/
def ASTNode.name : ASTNode → String
  | .mk n _ _ => n

/-- Captured raw text of a node. -/
def ASTNode.value : ASTNode → String
  | .mk _ v _ => v

/-- Children map of a node. -/
def ASTNode.children : ASTNode → List (String × List ASTNode)
  | .mk _ _ c => c

/-- Constructor `ASTNode::new`: empty value and children. -/
def ASTNode.new (name : String) : ASTNode := .mk name "" []

/-- Constructor `ASTNode::with_value`. -/
def ASTNode.with_value (name value : String) : ASTNode := .mk name value []

/-- Append `child` to the bucket keyed `key`, creating the bucket at the
end if absent (Rust `children.entry(key).or_default().push(child)`). -/
def addToBucket : List (String × List ASTNode) → String → ASTNode →
    List (String × List ASTNode)
  | [], key, child => [(key, [child])]
  | (k, cs) :: rest, key, child =>
    if k == key then (k, cs ++ [child]) :: rest
    else (k, cs) :: addToBucket rest key child

/-- Method `ASTNode::add_child`: push `child` into the bucket keyed by the
child's own name. -/
def ASTNode.add_child (n child : ASTNode) : ASTNode :=
  .mk n.name n.value (addToBucket n.children child.name child)

/-- Push a child into the bucket keyed `key` (used when splicing an
internal node's children, which preserves the original bucket keys). -/
def ASTNode.add_child_named (n : ASTNode) (key : String) (child : ASTNode) : ASTNode :=
  .mk n.name n.value (addToBucket n.children key child)

/-- Method `ASTNode::get_child`: first child of the bucket keyed `name`. -/
def ASTNode.get_child (n : ASTNode) (name : String) : Option ASTNode :=
  (n.children.lookup name).bind List.head?

/-- Method `ASTNode::get_children`: all children of the bucket keyed
`name`, or `[]`. -/
def ASTNode.get_children (n : ASTNode) (name : String) : List ASTNode :=
  (n.children.lookup name).getD []

/-- Splice a children map into `node` bucket by bucket (the
`for (name, children) in child.children` loops of `parser.rs`). -/
def splice_into (node : ASTNode) (pairs : List (String × List ASTNode)) : ASTNode :=
  pairs.foldl (fun acc pair => pair.2.foldl (fun a c => a.add_child_named pair.1 c) acc) node

/-- Input grammar expression (`src/meta_parser.rs`, `enum GrammarExpr`). -/
inductive GrammarExpr where
  | Literal (s : String)
  | Pattern (re : String)
  | RuleRef (name : String)
  | Sequence (items : List GrammarExpr)
  | Choice (choices : List GrammarExpr)
  | ZeroOrMore (inner : GrammarExpr)
  | OneOrMore (inner : GrammarExpr)
  | Optional (inner : GrammarExpr)
  | Group (inner : GrammarExpr)
  | Indent
  | Dedent
  | Newline
  | SameIndent

/-- Input grammar rule (`struct InputRule`). -/
structure InputRule where
  name : String
  expr : GrammarExpr

/-- Input grammar (`struct InputGrammar`); the rules `HashMap` is an
association list keyed by the rule name field. -/
structure InputGrammar where
  rules : List InputRule
  start_rule : String

/-- Lookup `grammar.rules.get(name)`. -/
def InputGrammar.find_rule (g : InputGrammar) (name : String) : Option InputRule :=
  g.rules.find? (fun r => r.name == name)

/-- Parse error (`src/parser.rs`, `struct ParseError`). -/
structure ParseError where
  position : Nat
  line : Nat
  column : Nat
  expected : List String
  found : String
  context_rule : String
  source_line : String
deriving DecidableEq

/-- Mutable parser state (`src/parser.rs`, `struct Parser`), minus the
semantically inert regex cache; `input` is immutable in Rust and carried
here for convenience. -/
structure Parser where
  input : List Char
  pos : Nat
  furthest_pos : Nat
  furthest_expected : List String
  furthest_rule : String
  indent_stack : List Nat
  pending_dedents : Nat
  at_line_start : Bool
  current_line_indent : Nat
deriving DecidableEq

/-- Constructor `Parser::new`. -/
def Parser.new (input : List Char) : Parser :=
  { input := input, pos := 0, furthest_pos := 0, furthest_expected := [],
    furthest_rule := "", indent_stack := [0], pending_dedents := 0,
    at_line_start := true, current_line_indent := 0 }

/-- The five cursor fields that every backtrackable construct snapshots
(`pos`, `indent_stack`, `pending_dedents`, `at_line_start`,
`current_line_indent`). -/
def Parser.cursor (p : Parser) : Nat × List Nat × Nat × Bool × Nat :=
  (p.pos, p.indent_stack, p.pending_dedents, p.at_line_start, p.current_line_indent)

/-- State restoration performed on every backtrack: the five cursor fields
are reset from the snapshot `snap`, everything else (the furthest-error
fields) keeps the value from the failed attempt `p`. -/
def restore_cursor (snap p : Parser) : Parser :=
  { p with
    pos := snap.pos
    indent_stack := snap.indent_stack
    pending_dedents := snap.pending_dedents
    at_line_start := snap.at_line_start
    current_line_indent := snap.current_line_indent }

/-- Characters skipped by `skip_whitespace_no_newline`. -/
def isHws (c : Char) : Bool := c == ' ' || c == '\t' || c == '\r'

/-- Length of the run of horizontal whitespace at the head of a list. -/
def countHws : List Char → Nat
  | [] => 0
  | c :: rest => if isHws c then countHws rest + 1 else 0

/-- Method `Parser::skip_whitespace_no_newline`: advance over spaces, tabs
and carriage returns only. -/
def skip_whitespace_no_newline (p : Parser) : Parser :=
  { p with pos := p.pos + countHws (p.input.drop p.pos) }

/-- Leading-whitespace column count of a line, tabs advancing to the next
multiple of 8 (the scanning loop of `Parser::update_line_indent`). -/
def compute_line_indent : List Char → Nat → Nat
  | ' ' :: rest, indent => compute_line_indent rest (indent + 1)
  | '\t' :: rest, indent => compute_line_indent rest ((indent / 8 + 1) * 8)
  | _, indent => indent

/-- Method `Parser::update_line_indent`: refresh `current_line_indent`
from the text at the cursor, but only at a line start. -/
def update_line_indent (p : Parser) : Parser :=
  if p.at_line_start then
    { p with current_line_indent := compute_line_indent (p.input.drop p.pos) 0 }
  else p

/-- Method `Parser::record_error`: overwrite the furthest-error data when
strictly beyond it, append (deduplicated) when at it, ignore otherwise. -/
def record_error (expected context_rule : String) (p : Parser) : Parser :=
  if p.pos > p.furthest_pos then
    { p with
      furthest_pos := p.pos
      furthest_expected := [expected]
      furthest_rule := context_rule }
  else if p.pos == p.furthest_pos then
    { p with furthest_expected :=
        if p.furthest_expected.contains expected then p.furthest_expected
        else p.furthest_expected ++ [expected] }
  else p

/-!
Regex-class terminals.  `Parser::parse_pattern` delegates matching to the
external `regex` crate (anchored with an implicit leading caret).
-/

/-- Item of a regex character class: a single character or a range. -/
inductive ClassItem where
  | single (c : Char)
  | range (a b : Char)
deriving DecidableEq

/-- Regex character class, possibly negated. -/
structure CharClass where
  neg : Bool
  items : List ClassItem
deriving DecidableEq

/-- Membership of a character in one class item. -/
def classItemMatches : ClassItem → Char → Bool
  | .single c, x => x == c
  | .range a b, x => decide (a ≤ x) && decide (x ≤ b)

/-- Membership of a character in a character class. -/
def classMatches (cls : CharClass) (x : Char) : Bool :=
  if cls.neg then !(cls.items.any (classItemMatches · x))
  else cls.items.any (classItemMatches · x)

/-- Quantifier following a character class. -/
inductive Quant where
  | one
  | plus
  | star
  | opt
deriving DecidableEq

/-- Translation of a regex escape character. -/
def escChar (c : Char) : Char :=
  if c == 'n' then '\n' else if c == 't' then '\t' else if c == 'r' then '\r' else c

/-- Read the items of a character class up to the closing bracket,
returning the items and the rest of the pattern. -/
def readClassItems : List Char → Option (List ClassItem × List Char)
  | [] => none
  | ']' :: rest => some ([], rest)
  | '\\' :: e :: '-' :: '\\' :: f :: rest =>
    (readClassItems rest).map (fun r => (.range (escChar e) (escChar f) :: r.1, r.2))
  | '\\' :: e :: '-' :: b :: rest =>
    if b == ']' then
      (readClassItems (b :: rest)).map (fun r => (.single (escChar e) :: .single '-' :: r.1, r.2))
    else (readClassItems rest).map (fun r => (.range (escChar e) b :: r.1, r.2))
  | '\\' :: e :: rest =>
    (readClassItems rest).map (fun r => (.single (escChar e) :: r.1, r.2))
  | a :: '-' :: '\\' :: f :: rest =>
    (readClassItems rest).map (fun r => (.range a (escChar f) :: r.1, r.2))
  | a :: '-' :: b :: rest =>
    if b == ']' then
      (readClassItems (b :: rest)).map (fun r => (.single a :: .single '-' :: r.1, r.2))
    else (readClassItems rest).map (fun r => (.range a b :: r.1, r.2))
  | a :: rest =>
    (readClassItems rest).map (fun r => (.single a :: r.1, r.2))

/-- Modelled from the spec: the external `regex` engine used by
`Parser::parse_pattern` is not part of this repository; per the spec,
patterns are regex-class terminals (`Pattern(re)` with a bracketed
character class, optionally quantified), anchored at the cursor.  This
parses a pattern string of that canonical shape; other shapes are not
modelled (they yield no match). -/
def parsePatShape (pat : List Char) : Option (CharClass × Quant) :=
  match pat with
  | '[' :: '^' :: rest =>
    (readClassItems rest).bind (fun r =>
      match r.2 with
      | [] => some (⟨true, r.1⟩, .one)
      | ['+'] => some (⟨true, r.1⟩, .plus)
      | ['*'] => some (⟨true, r.1⟩, .star)
      | ['?'] => some (⟨true, r.1⟩, .opt)
      | _ => none)
  | '[' :: rest =>
    (readClassItems rest).bind (fun r =>
      match r.2 with
      | [] => some (⟨false, r.1⟩, .one)
      | ['+'] => some (⟨false, r.1⟩, .plus)
      | ['*'] => some (⟨false, r.1⟩, .star)
      | ['?'] => some (⟨false, r.1⟩, .opt)
      | _ => none)
  | _ => none

/-- Greedy anchored match of a quantified class against the input,
returning the matched characters. -/
def matchQuant (cls : CharClass) : Quant → List Char → Option (List Char)
  | .one, c :: _ => if classMatches cls c then some [c] else none
  | .one, [] => none
  | .plus, l => let m := l.takeWhile (classMatches cls); if m.isEmpty then none else some m
  | .star, l => some (l.takeWhile (classMatches cls))
  | .opt, c :: _ => if classMatches cls c then some [c] else some []
  | .opt, [] => some []

/-- Anchored regex find (`Regex::new("^" + pat).find(remaining)`) for the
modelled pattern shapes. -/
def regexFind (pat : String) (l : List Char) : Option (List Char) :=
  (parsePatShape pat.data).bind (fun s => matchQuant s.1 s.2 l)

/-!
Terminal parsers from `src/parser.rs`.  Each returns the Rust
`Option<ASTNode>` together with the mutated parser state (failures still
mutate the furthest-error fields, and may leave the cursor advanced past
skipped whitespace: the enclosing backtrackable construct restores it).
-/

/-- Method `Parser::parse_literal`. -/
def parse_literal (lit : String) (context_rule : String) (p : Parser) :
    Option ASTNode × Parser :=
  let p1 := skip_whitespace_no_newline p
  if lit.data.isPrefixOf (p1.input.drop p1.pos) then
    (some (ASTNode.with_value "_literal" lit),
     { p1 with pos := p1.pos + lit.length, at_line_start := false })
  else
    (none, record_error ("\"" ++ lit ++ "\"") context_rule p1)

/-- Method `Parser::parse_pattern`. -/
def parse_pattern (pat : String) (context_rule : String) (p : Parser) :
    Option ASTNode × Parser :=
  let p1 := skip_whitespace_no_newline p
  match regexFind pat (p1.input.drop p1.pos) with
  | some m =>
    (some (ASTNode.with_value "_pattern" (String.mk m)),
     { p1 with pos := p1.pos + m.length, at_line_start := false })
  | none =>
    (none, record_error ("pattern /" ++ pat ++ "/") context_rule p1)

/-- Method `Parser::parse_indent`: succeeds only when no dedents are
pending and the current line is indented beyond the stack top; pushes the
new level and consumes the leading whitespace. -/
def parse_indent (context_rule : String) (p : Parser) : Option ASTNode × Parser :=
  if p.pending_dedents > 0 then
    (none, record_error "INDENT" context_rule p)
  else
    let current_indent := p.indent_stack.headD 0
    if p.current_line_indent > current_indent then
      let p1 := skip_whitespace_no_newline
        { p with indent_stack := p.current_line_indent :: p.indent_stack }
      (some (ASTNode.with_value "_indent" ""), { p1 with at_line_start := false })
    else
      (none, record_error "INDENT" context_rule p)

/-- Number of additional levels to pop so that the stack top is at most
`cli`, never popping the bottom entry (the `while test_stack.len() > 1`
loop of `Parser::parse_dedent`). -/
def count_extra_dedents : List Nat → Nat → Nat
  | a :: b :: rest, cli =>
    if cli ≥ a then 0 else 1 + count_extra_dedents (b :: rest) cli
  | _, _ => 0

/-- Method `Parser::parse_dedent`. -/
def parse_dedent (context_rule : String) (p : Parser) : Option ASTNode × Parser :=
  if p.pending_dedents > 0 then
    (some (ASTNode.with_value "_dedent" ""),
     { p with pending_dedents := p.pending_dedents - 1, indent_stack := p.indent_stack.tail })
  else
    let current_indent := p.indent_stack.headD 0
    if p.current_line_indent < current_indent then
      let stack1 := p.indent_stack.tail
      let new_indent := stack1.headD 0
      let pd :=
        if p.current_line_indent < new_indent then
          count_extra_dedents stack1 p.current_line_indent
        else p.pending_dedents
      (some (ASTNode.with_value "_dedent" ""),
       { p with indent_stack := stack1, pending_dedents := pd })
    else
      (none, record_error "DEDENT" context_rule p)

/-- Iteration of the blank-line loop of `Parser::parse_newline`, counted
down by a fuel that bounds the number of iterations (each iteration of the
Rust loop consumes at least the one newline character, so a fuel of the
input length is always sufficient). -/
def blank_lines_go : Nat → List Char → Nat
  | 0, _ => 0
  | fuel + 1, l =>
    let h := countHws l
    match l.drop h with
    | '\n' :: rest => h + 1 + blank_lines_go fuel rest
    | '\r' :: '\n' :: rest => h + 2 + blank_lines_go fuel rest
    | _ => 0

/-- Number of characters consumed by the blank-line loop of
`Parser::parse_newline`: full lines of horizontal whitespace followed by a
newline. -/
def blank_lines_len (l : List Char) : Nat := blank_lines_go l.length l

/-- Method `Parser::parse_newline`: horizontal whitespace, one mandatory
newline, then greedily skipped blank lines; ends at a line start with the
indent of the new line recomputed. -/
def parse_newline (context_rule : String) (p : Parser) : Option ASTNode × Parser :=
  let p1 := skip_whitespace_no_newline p
  let first :=
    match p1.input.drop p1.pos with
    | '\n' :: _ => some ({ p1 with pos := p1.pos + 1 })
    | '\r' :: '\n' :: _ => some ({ p1 with pos := p1.pos + 2 })
    | _ => none
  match first with
  | none => (none, record_error "NEWLINE" context_rule p1)
  | some p2 =>
    let p3 := { p2 with pos := p2.pos + blank_lines_len (p2.input.drop p2.pos) }
    (some (ASTNode.with_value "_newline" "\n"),
     update_line_indent { p3 with at_line_start := true })

/-- Method `Parser::parse_same_indent`: succeeds when the current line's
indentation equals the stack top; consumes the leading whitespace. -/
def parse_same_indent (context_rule : String) (p : Parser) : Option ASTNode × Parser :=
  let current_indent := p.indent_stack.headD 0
  if p.current_line_indent == current_indent then
    let p1 := skip_whitespace_no_newline p
    (some (ASTNode.with_value "_same_indent" ""), { p1 with at_line_start := false })
  else
    (none, record_error "SAME_INDENT" context_rule p)

/-- Child-merging step of `Parser::parse_sequence`: user-named children
are added, internal splice nodes other than the listed terminals have
their children spliced in, terminal internal nodes are dropped. -/
def seq_merge (node child : ASTNode) : ASTNode :=
  if child.name.startsWith "_" then
    if child.name == "_literal" || child.name == "_pattern" ||
        child.name == "_optional_empty" || child.name == "_indent" ||
        child.name == "_dedent" || child.name == "_newline" then node
    else splice_into node child.children
  else node.add_child child

/-- Child-merging step of the repetition loops (`parse_zero_or_more` and
`parse_one_or_more`). -/
def rep_merge (node child : ASTNode) : ASTNode :=
  if child.name.startsWith "_" then
    if child.name == "_indent" || child.name == "_dedent" ||
        child.name == "_newline" then node
    else splice_into node child.children
  else node.add_child child

/-- Wrapping of a successful alternative in `Parser::parse_choice`: a
child already named like the context rule passes through; otherwise it is
wrapped (user-named) or spliced (internal). -/
def choice_wrap (context_rule : String) (child : ASTNode) : ASTNode :=
  if child.name == context_rule then child
  else
    let node := ASTNode.new context_rule
    if child.name.startsWith "_" then splice_into node child.children
    else node.add_child child

/-- Wrapping of `GrammarExpr::Group` results: a fresh `_group` node
holding the sub-result's children. -/
def group_node (r : ASTNode) : ASTNode :=
  splice_into (ASTNode.new "_group") r.children

mutual

/-- Method `Parser::parse_rule`: look the rule up (absence is a plain
parse failure via the `?` operator), run its body, and on success name the
node after the rule, defaulting the value to the consumed source slice; on
failure only `pos` is restored here. -/
def parse_rule (g : InputGrammar) (fuel : Nat) (rule_name : String) (p : Parser) :
    Option (Option ASTNode × Parser) :=
  match fuel with
  | 0 => none
  | fuel + 1 =>
    match g.find_rule rule_name with
    | none => some (none, p)
    | some rule =>
      let start_pos := p.pos
      match parse_expr g fuel rule.expr rule_name p with
      | none => none
      | some (none, p1) => some (none, { p1 with pos := start_pos })
      | some (some node, p1) =>
        let node1 :=
          if node.children.isEmpty && node.value == "" then
            ASTNode.mk node.name (String.mk ((p1.input.drop start_pos).take (p1.pos - start_pos))) node.children
          else node
        some (some (ASTNode.mk rule_name node1.value node1.children), p1)

/-- Method `Parser::parse_expr`: dispatch over the grammar expression. -/
def parse_expr (g : InputGrammar) (fuel : Nat) (e : GrammarExpr) (context_rule : String)
    (p : Parser) : Option (Option ASTNode × Parser) :=
  match fuel with
  | 0 => none
  | fuel + 1 =>
    match e with
    | .Literal lit => some (parse_literal lit context_rule p)
    | .Pattern pat => some (parse_pattern pat context_rule p)
    | .RuleRef name => parse_rule g fuel name p
    | .Sequence items => parse_seq_items g fuel items context_rule (ASTNode.new context_rule) p p
    | .Choice choices => parse_choice_list g fuel choices context_rule p p
    | .ZeroOrMore inner => parse_rep_loop g fuel inner context_rule (ASTNode.new "_repeat") p
    | .OneOrMore inner =>
      match parse_expr g fuel inner context_rule p with
      | none => none
      | some (none, p1) => some (none, p1)
      | some (some first, p1) =>
        parse_rep_loop g fuel inner context_rule (rep_merge (ASTNode.new "_repeat") first) p1
    | .Optional inner =>
      match parse_expr g fuel inner context_rule p with
      | none => none
      | some (some child, p1) => some (some child, p1)
      | some (none, p1) => some (some (ASTNode.new "_optional_empty"), restore_cursor p p1)
    | .Group inner =>
      match parse_expr g fuel inner context_rule p with
      | none => none
      | some (none, p1) => some (none, p1)
      | some (some r, p1) => some (some (group_node r), p1)
    | .Indent => some (parse_indent context_rule p)
    | .Dedent => some (parse_dedent context_rule p)
    | .Newline => some (parse_newline context_rule p)
    | .SameIndent => some (parse_same_indent context_rule p)

/-- Item loop of `Parser::parse_sequence`: `snap` is the state snapshotted
at entry of the sequence; any item failure restores the cursor from it. -/
def parse_seq_items (g : InputGrammar) (fuel : Nat) (items : List GrammarExpr)
    (context_rule : String) (node : ASTNode) (snap p : Parser) :
    Option (Option ASTNode × Parser) :=
  match fuel with
  | 0 => none
  | fuel + 1 =>
    match items with
    | [] => some (some node, p)
    | item :: rest =>
      match parse_expr g fuel item context_rule p with
      | none => none
      | some (some child, p1) =>
        parse_seq_items g fuel rest context_rule (seq_merge node child) snap p1
      | some (none, p1) => some (none, restore_cursor snap p1)

/-- Alternative loop of `Parser::parse_choice`: `snap` is the state
snapshotted at entry; after each failed alternative the cursor is restored
from it before the next is tried, and after the last failure the restored
state is returned. -/
def parse_choice_list (g : InputGrammar) (fuel : Nat) (choices : List GrammarExpr)
    (context_rule : String) (snap p : Parser) : Option (Option ASTNode × Parser) :=
  match fuel with
  | 0 => none
  | fuel + 1 =>
    match choices with
    | [] => some (none, p)
    | c :: rest =>
      match parse_expr g fuel c context_rule p with
      | none => none
      | some (some child, p1) => some (some (choice_wrap context_rule child), p1)
      | some (none, p1) => parse_choice_list g fuel rest context_rule snap (restore_cursor snap p1)

/-- Greedy repetition loop shared by `parse_zero_or_more` and the tail of
`parse_one_or_more`: each iteration snapshots the state, and the first
failing iteration restores it and returns the accumulated node.  The loop
exits only on failure of the body — there is no progress check. -/
def parse_rep_loop (g : InputGrammar) (fuel : Nat) (inner : GrammarExpr)
    (context_rule : String) (node : ASTNode) (p : Parser) :
    Option (Option ASTNode × Parser) :=
  match fuel with
  | 0 => none
  | fuel + 1 =>
    match parse_expr g fuel inner context_rule p with
    | none => none
    | some (some child, p1) => parse_rep_loop g fuel inner context_rule (rep_merge node child) p1
    | some (none, p1) => some (some node, restore_cursor p p1)

end

/-- Line and column (1-indexed) of a position
(`Parser::pos_to_line_col`). -/
def pos_to_line_col (input : List Char) (pos : Nat) : Nat × Nat :=
  ((input.take pos).foldl (fun lc c => if c == '\n' then (lc.1 + 1, 1) else (lc.1, lc.2 + 1)) (1, 1))

/-- Source line `line_num` (1-indexed) of the input
(`Parser::get_source_line`, via `str::lines`). -/
def get_source_line (input : List Char) (line_num : Nat) : String :=
  let ls := (String.mk input).splitOn "\n"
  let ls := ls.map (fun s => if s.endsWith "\r" then s.dropRight 1 else s)
  ((if ls.getLast? == some "" then ls.dropLast else ls).getD (line_num - 1) "")

/-- UTF-8 byte length of a character list (Rust `str::len`). -/
def utf8Len (l : List Char) : Nat := (l.map Char.utf8Size).sum

/-- Method `Parser::get_found_text`: "end of input" when nothing remains,
otherwise the first 20 characters, with "..." appended when the remaining
byte length exceeds 20. -/
def get_found_text (input : List Char) (pos : Nat) : String :=
  let remaining := input.drop pos
  if remaining.isEmpty then "end of input"
  else
    let preview := String.mk (remaining.take 20)
    if utf8Len remaining > 20 then preview ++ "..." else preview

/-- Method `Parser::build_error`. -/
def build_error (p : Parser) : ParseError :=
  let lc := pos_to_line_col p.input p.furthest_pos
  { position := p.furthest_pos, line := lc.1, column := lc.2,
    expected := p.furthest_expected, found := get_found_text p.input p.furthest_pos,
    context_rule := p.furthest_rule, source_line := get_source_line p.input lc.1 }

/-- Method `Parser::parse`: recompute the first line's indent, run the
start rule, skip trailing horizontal whitespace, and demand that the whole
input was consumed.  The final mutable state is returned alongside the
Rust result. -/
def parse (g : InputGrammar) (fuel : Nat) (input : List Char) :
    Option (Except ParseError ASTNode × Parser) :=
  let p0 := update_line_indent (Parser.new input)
  match parse_rule g fuel g.start_rule p0 with
  | none => none
  | some (result, p1) =>
    let p2 := skip_whitespace_no_newline p1
    match result with
    | some ast =>
      if p2.pos < p2.input.length then
        let p3 := record_error "end of input" g.start_rule p2
        some (.error (build_error p3), p3)
      else
        some (.ok ast, p2)
    | none => some (.error (build_error p2), p2)

/-!
Output grammar and generator (`src/meta_parser.rs` types,
`src/generator.rs` evaluation).
-/

/-- Output grammar expression (`enum OutputExpr`). -/
inductive OutputExpr where
  | Literal (s : String)
  | RuleRef (name : String)
  | Sequence (items : List OutputExpr)
  | Optional (inner : OutputExpr)
  | Join (rule : String) (separator : String)
  | Match (cases : List (String × String)) (default : String)
  | ContextIf (context_value : String) (then_expr else_expr : OutputExpr)
  | Choice (alternatives : List OutputExpr)

/-- Output grammar rule (`struct OutputRule`). -/
structure OutputRule where
  name : String
  expr : OutputExpr

/-- Output grammar (`struct OutputGrammar`). -/
structure OutputGrammar where
  rules : List OutputRule

/-- Lookup `grammar.rules.get(name)`. -/
def OutputGrammar.find_rule (g : OutputGrammar) (name : String) : Option OutputRule :=
  g.rules.find? (fun r => r.name == name)

/-- Replace every (non-overlapping, left-to-right) occurrence of the
two-character sequence `a b` by the character `r` (one Rust
`str::replace` pass). -/
def replaceEsc (a b r : Char) : List Char → List Char
  | [] => []
  | [x] => [x]
  | x :: y :: rest =>
    if x == a && y == b then r :: replaceEsc a b r rest
    else x :: replaceEsc a b r (y :: rest)

/-- Escape expansion of the generator
(`lit.replace("\\n", "\n").replace("\\t", "\t").replace("\\r", "\r")`). -/
def expand_escapes (s : String) : String :=
  String.mk (replaceEsc '\\' 'r' '\r' (replaceEsc '\\' 't' '\t' (replaceEsc '\\' 'n' '\n' s.data)))

/-- Linear case scan of `OutputExpr::Match` evaluation: the first case
whose pattern equals the value wins; otherwise the default is emitted,
with the sentinel `@value` echoing the value. -/
def eval_match : List (String × String) → String → String → String
  | [], default, value => if default == "@value" then value else default
  | c :: rest, default, value =>
    if value == c.1 then c.2 else eval_match rest default value

mutual

/-- Method `Generator::generate_rule`: evaluate the output rule named
`rule_name` on `ast`; if the rule is missing, fall back to the node's
value, or recurse into all children. -/
def generate_rule (g : OutputGrammar) (fuel : Nat) (rule_name : String) (ast : ASTNode)
    (context : String) : Option String :=
  match fuel with
  | 0 => none
  | fuel + 1 =>
    match g.find_rule rule_name with
    | some rule => generate_expr g fuel rule.expr ast rule_name context
    | none =>
      if !(ast.value == "") then some ast.value
      else gen_children g fuel ast.children rule_name

/-- Fallback iteration over the children map buckets. -/
def gen_children (g : OutputGrammar) (fuel : Nat)
    (pairs : List (String × List ASTNode)) (rule_name : String) : Option String :=
  match fuel with
  | 0 => none
  | fuel + 1 =>
    match pairs with
    | [] => some ""
    | pr :: rest =>
      (gen_child_list g fuel pr.2 rule_name).bind (fun s1 =>
        (gen_children g fuel rest rule_name).map (fun s2 => s1 ++ s2))

/-- Fallback iteration over one bucket's children. -/
def gen_child_list (g : OutputGrammar) (fuel : Nat) (cs : List ASTNode)
    (rule_name : String) : Option String :=
  match fuel with
  | 0 => none
  | fuel + 1 =>
    match cs with
    | [] => some ""
    | c :: rest =>
      (generate_rule g fuel c.name c rule_name).bind (fun s1 =>
        (gen_child_list g fuel rest rule_name).map (fun s2 => s1 ++ s2))

/-- Method `Generator::generate_expr`: dispatch over the output
expression, with `current_rule` the rule being evaluated and `context`
the output-rule name that invoked it. -/
def generate_expr (g : OutputGrammar) (fuel : Nat) (e : OutputExpr) (ast : ASTNode)
    (current_rule context : String) : Option String :=
  match fuel with
  | 0 => none
  | fuel + 1 =>
    match e with
    | .Literal lit => some (expand_escapes lit)
    | .RuleRef name =>
      match ast.get_child name with
      | some child => generate_rule g fuel name child current_rule
      | none =>
        if ast.name == name then generate_rule g fuel name ast current_rule
        else if !(ast.value == "") && ast.children.isEmpty then
          generate_rule g fuel name ast current_rule
        else some ""
    | .Sequence items => gen_seq g fuel items ast current_rule context
    | .Optional inner =>
      (generate_expr g fuel inner ast current_rule context).map (fun r =>
        if r.trim.isEmpty then "" else r)
    | .Join rule separator =>
      (gen_join g fuel (ast.get_children rule) rule current_rule).map (fun parts =>
        String.intercalate (expand_escapes separator) parts)
    | .Match cases default => some (eval_match cases default ast.value)
    | .ContextIf context_value then_expr else_expr =>
      if context == context_value then
        generate_expr g fuel then_expr ast current_rule context
      else
        generate_expr g fuel else_expr ast current_rule context
    | .Choice alternatives => gen_choice g fuel alternatives ast current_rule context

/-- Concatenation loop of `OutputExpr::Sequence`. -/
def gen_seq (g : OutputGrammar) (fuel : Nat) (items : List OutputExpr) (ast : ASTNode)
    (current_rule context : String) : Option String :=
  match fuel with
  | 0 => none
  | fuel + 1 =>
    match items with
    | [] => some ""
    | item :: rest =>
      (generate_expr g fuel item ast current_rule context).bind (fun s1 =>
        (gen_seq g fuel rest ast current_rule context).map (fun s2 => s1 ++ s2))

/-- Per-child evaluation loop of `OutputExpr::Join`. -/
def gen_join (g : OutputGrammar) (fuel : Nat) (cs : List ASTNode)
    (rule current_rule : String) : Option (List String) :=
  match fuel with
  | 0 => none
  | fuel + 1 =>
    match cs with
    | [] => some []
    | c :: rest =>
      (generate_rule g fuel rule c current_rule).bind (fun s1 =>
        (gen_join g fuel rest rule current_rule).map (fun ss => s1 :: ss))

/-- First-non-empty loop of `OutputExpr::Choice`. -/
def gen_choice (g : OutputGrammar) (fuel : Nat) (alternatives : List OutputExpr)
    (ast : ASTNode) (current_rule context : String) : Option String :=
  match fuel with
  | 0 => none
  | fuel + 1 =>
    match alternatives with
    | [] => some ""
    | alt :: rest =>
      (generate_expr g fuel alt ast current_rule context).bind (fun r =>
        if !(r == "") then some r else gen_choice g fuel rest ast current_rule context)

end

/-- Method `Generator::generate`: evaluate the rule named after the root
node, with empty context. -/
def generate (g : OutputGrammar) (fuel : Nat) (ast : ASTNode) : Option String :=
  generate_rule g fuel ast.name ast ""

/-!
Meta-parser (`src/meta_parser.rs`), input-grammar side.  Failed `assert!`
and `expect` calls abort the Rust process; they are modelled as `none`.
-/

/-- Meta-parser cursor (`struct MetaParser`). -/
structure MetaParser where
  input : List Char
  pos : Nat

/-- Constructor `MetaParser::new`. -/
def MetaParser.new (input : String) : MetaParser := ⟨input.data, 0⟩

/-- Remaining input of the meta-parser. -/
def MetaParser.rem (m : MetaParser) : List Char := m.input.drop m.pos

/-- Method `MetaParser::peek_char`. -/
def MetaParser.peek_char (m : MetaParser) : Option Char := m.rem.head?

/-- Length of the run of characters satisfying `p` at the head. -/
def countP (p : Char → Bool) : List Char → Nat
  | [] => 0
  | c :: rest => if p c then countP p rest + 1 else 0

/-- Characters consumed by the comment-skipping inner loop: everything up
to and including the next newline (or the end of input). -/
def line_consume : List Char → Nat
  | [] => 0
  | c :: rest => if c == '\n' then 1 else 1 + line_consume rest

/-- Iteration of the whitespace-and-comment loop, counted down by a fuel
that bounds the number of iterations (each iteration of the Rust loop
consumes at least the two characters of a `//`, so a fuel of the input
length is always sufficient). -/
def swc_go : Nat → List Char → Nat
  | 0, _ => 0
  | fuel + 1, l =>
    let w := countP Char.isWhitespace l
    match l.drop w with
    | '/' :: '/' :: rest =>
      w + 2 + line_consume rest + swc_go fuel (rest.drop (line_consume rest))
    | _ => w

/-- Characters consumed by `MetaParser::skip_whitespace_and_comments`:
alternately whitespace runs and `//` line comments. -/
def swc_len (l : List Char) : Nat := swc_go l.length l

/-- Method `MetaParser::skip_whitespace_and_comments`. -/
def MetaParser.skip_wc (m : MetaParser) : MetaParser :=
  { m with pos := m.pos + swc_len m.rem }

/-- Method `MetaParser::parse_identifier`: the run of alphanumeric or
underscore characters at the cursor (possibly empty). -/
def MetaParser.parse_identifier (m : MetaParser) : String × MetaParser :=
  let n := countP (fun c => c.isAlphanum || c == '_') m.rem
  (String.mk (m.rem.take n), { m with pos := m.pos + n })

/-- Method `MetaParser::parse_string_literal`: a double-quoted string with
no escape processing (`none` models the `expect_char` panic). -/
def MetaParser.parse_string_literal (m : MetaParser) : Option (String × MetaParser) :=
  match m.rem with
  | '"' :: rest =>
    let content := rest.takeWhile (fun c => !(c == '"'))
    match rest.drop content.length with
    | '"' :: _ => some (String.mk content, { m with pos := m.pos + content.length + 2 })
    | _ => none
  | _ => none

/-- Characters consumed inside a bracketed pattern until the bracket depth
returns to zero, counting the closing bracket (`none` models the
"Unclosed pattern" panic). -/
def pat_body_len : List Char → Nat → Option Nat
  | [], _ => none
  | c :: rest, depth =>
    if c == '[' then (pat_body_len rest (depth + 1)).map (· + 1)
    else if c == ']' then
      if depth == 1 then some 1 else (pat_body_len rest (depth - 1)).map (· + 1)
    else (pat_body_len rest depth).map (· + 1)

/-- Method `MetaParser::parse_pattern`: a bracketed pattern with nesting
tracked; the returned text excludes the outer brackets. -/
def MetaParser.parse_pattern (m : MetaParser) : Option (String × MetaParser) :=
  match m.rem with
  | '[' :: rest =>
    (pat_body_len rest 1).map (fun k =>
      (String.mk (rest.take (k - 1)), { m with pos := m.pos + 1 + k }))
  | _ => none

/-- Postfix quantifier check shared by every `parse_input_atom` branch. -/
def postfix_op (base : GrammarExpr) (m : MetaParser) : GrammarExpr × MetaParser :=
  let m1 := m.skip_wc
  match m1.peek_char with
  | some '*' => (.ZeroOrMore base, { m1 with pos := m1.pos + 1 })
  | some '+' => (.OneOrMore base, { m1 with pos := m1.pos + 1 })
  | some '?' => (.Optional base, { m1 with pos := m1.pos + 1 })
  | _ => (base, m1)

/-- Collapse of a one-element sequence (`items.len() == 1`). -/
def seq_of : List GrammarExpr → GrammarExpr
  | [x] => x
  | items => .Sequence items

/-- Collapse of a one-element choice (`choices.len() == 1`). -/
def choice_of : List GrammarExpr → GrammarExpr
  | [x] => x
  | choices => .Choice choices

mutual

/-- Method `MetaParser::parse_input_atom`: `some (none, m)` is the Rust
`None` (no atom here, sequence loop breaks), outer `none` is a panic or
fuel exhaustion. -/
def MetaParser.parse_input_atom (fuel : Nat) (m : MetaParser) :
    Option (Option GrammarExpr × MetaParser) :=
  match fuel with
  | 0 => none
  | fuel + 1 =>
    let m := m.skip_wc
    match m.peek_char with
    | none => some (none, m)
    | some ch =>
      if ch == '"' then
        match m.parse_string_literal with
        | none => none
        | some (lit, m1) =>
          let base :=
            if lit.data.head? == some '[' || lit.data.contains '+' ||
                lit.data.contains '*' || lit.data.contains '\\' then
              GrammarExpr.Pattern lit
            else GrammarExpr.Literal lit
          let r := postfix_op base m1
          some (some r.1, r.2)
      else if ch == '[' then
        match m.parse_pattern with
        | none => none
        | some (pat, m1) =>
          let r := postfix_op (GrammarExpr.Pattern pat) m1
          some (some r.1, r.2)
      else if ch == '(' then
        let m1 := MetaParser.skip_wc { m with pos := m.pos + 1 }
        match MetaParser.parse_input_expr fuel m1 with
        | none => none
        | some (inner, m2) =>
          let m3 := m2.skip_wc
          match m3.peek_char with
          | some ')' =>
            let r := postfix_op (GrammarExpr.Group inner) { m3 with pos := m3.pos + 1 }
            some (some r.1, r.2)
          | _ => none
      else if ch.isAlpha || ch == '_' then
        let r := m.parse_identifier
        let base :=
          if r.1 == "INDENT" then GrammarExpr.Indent
          else if r.1 == "DEDENT" then GrammarExpr.Dedent
          else if r.1 == "NEWLINE" then GrammarExpr.Newline
          else GrammarExpr.RuleRef r.1
        let q := postfix_op base r.2
        some (some q.1, q.2)
      else some (none, m)

/-- Atom loop of `MetaParser::parse_input_sequence`. -/
def MetaParser.parse_input_items (fuel : Nat) (m : MetaParser) :
    Option (List GrammarExpr × MetaParser) :=
  match fuel with
  | 0 => none
  | fuel + 1 =>
    match MetaParser.parse_input_atom fuel m.skip_wc with
    | none => none
    | some (none, m1) => some ([], m1)
    | some (some item, m1) =>
      (MetaParser.parse_input_items fuel m1).map (fun r => (item :: r.1, r.2))

/-- Method `MetaParser::parse_input_sequence`. -/
def MetaParser.parse_input_sequence (fuel : Nat) (m : MetaParser) :
    Option (GrammarExpr × MetaParser) :=
  match fuel with
  | 0 => none
  | fuel + 1 =>
    (MetaParser.parse_input_items fuel m).map (fun r => (seq_of r.1, r.2))

/-- Alternative loop of `MetaParser::parse_input_expr`. -/
def MetaParser.parse_more_alts (fuel : Nat) (m : MetaParser) :
    Option (List GrammarExpr × MetaParser) :=
  match fuel with
  | 0 => none
  | fuel + 1 =>
    let m1 := m.skip_wc
    match m1.peek_char with
    | some '|' =>
      let m2 := MetaParser.skip_wc { m1 with pos := m1.pos + 1 }
      match MetaParser.parse_input_sequence fuel m2 with
      | none => none
      | some (alt, m3) =>
        (MetaParser.parse_more_alts fuel m3).map (fun r => (alt :: r.1, r.2))
    | _ => some ([], m1)

/-- Method `MetaParser::parse_input_expr`: a `|`-separated choice of
sequences. -/
def MetaParser.parse_input_expr (fuel : Nat) (m : MetaParser) :
    Option (GrammarExpr × MetaParser) :=
  match fuel with
  | 0 => none
  | fuel + 1 =>
    match MetaParser.parse_input_sequence fuel m with
    | none => none
    | some (first, m1) =>
      (MetaParser.parse_more_alts fuel m1).map (fun r => (choice_of (first :: r.1), r.2))

end

/-- Replacement insert into the rules map (`HashMap::insert` keyed by the
rule name). -/
def insert_rule (rules : List InputRule) (r : InputRule) : List InputRule :=
  if rules.any (fun x => x.name == r.name) then
    rules.map (fun x => if x.name == r.name then r else x)
  else rules ++ [r]

/-- Rule loop of `MetaParser::parse_input_grammar`. -/
def MetaParser.parse_grammar_loop (fuel : Nat) (m : MetaParser) (rules : List InputRule)
    (start_rule : String) : Option InputGrammar :=
  match fuel with
  | 0 => none
  | fuel + 1 =>
    if m.pos < m.input.length then
      let m1 := m.skip_wc
      if m1.pos ≥ m1.input.length then some ⟨rules, start_rule⟩
      else
        let r := m1.parse_identifier
        if r.1 == "" then some ⟨rules, start_rule⟩
        else
          let start1 := if start_rule == "" then r.1 else start_rule
          let m2 := r.2.skip_wc
          match m2.rem with
          | ':' :: '=' :: _ =>
            let m3 := MetaParser.skip_wc { m2 with pos := m2.pos + 2 }
            match MetaParser.parse_input_expr fuel m3 with
            | none => none
            | some (expr, m4) =>
              let m5 := m4.skip_wc
              match m5.peek_char with
              | some ';' =>
                MetaParser.parse_grammar_loop fuel { m5 with pos := m5.pos + 1 }
                  (insert_rule rules ⟨r.1, expr⟩) start1
              | _ => none
          | _ => none
    else some ⟨rules, start_rule⟩

/-- Method `MetaParser::parse_input_grammar`. -/
def MetaParser.parse_input_grammar (fuel : Nat) (m : MetaParser) : Option InputGrammar :=
  MetaParser.parse_grammar_loop fuel m [] ""

/-!
Specification-side definitions.  Each is written from the words of the
specification or claim it formalises, to be compared with the
source-derived definitions above.
-/

/-- Specification of the error recorder, written from the claim's words:
strictly greater position replaces the expected set, the furthest
position and rule; equal position appends the expectation only when not
already present; smaller position leaves everything unchanged. -/
def record_error_spec (expected context_rule : String) (p : Parser) : Parser :=
  match compare p.pos p.furthest_pos with
  | .gt =>
    { p with
      furthest_pos := p.pos
      furthest_expected := [expected]
      furthest_rule := context_rule }
  | .eq =>
    { p with furthest_expected :=
        if expected ∈ p.furthest_expected then p.furthest_expected
        else p.furthest_expected ++ [expected] }
  | .lt => p

/-- Specification of `RuleRef` resolution, written from the claim's words:
a child whose rule name is `name` (first such child, evaluated with the
current rule as the new context), else the node itself when its own name
equals `name`, else the node anyway when it is a leaf (non-empty value
and no children), else the empty string. -/
def rule_ref_resolution (g : OutputGrammar) (fuel : Nat) (name : String) (ast : ASTNode)
    (current_rule : String) : Option String :=
  match (ast.get_children name).head? with
  | some firstChild => generate_rule g fuel name firstChild current_rule
  | none =>
    if ast.name = name then generate_rule g fuel name ast current_rule
    else if ast.value ≠ "" ∧ ast.children.isEmpty = true then
      generate_rule g fuel name ast current_rule
    else some ""

/-- Specification of `Match` evaluation, written from the claim's words:
linear scan, first case whose pattern equals the value wins; otherwise the
default, with the sentinel `@value` replaced by the value. -/
def match_spec (cases : List (String × String)) (default value : String) : String :=
  match cases.find? (fun c => c.1 == value) with
  | some c => c.2
  | none => if default == "@value" then value else default

/-- Found text exactly as the claim states it: up to 20 characters,
followed by the single character "…" if and only if the remaining input is
longer than 20 characters, or "end of input" when empty. -/
def found_text_claimed (input : List Char) (pos : Nat) : String :=
  let remaining := input.drop pos
  if remaining.isEmpty then "end of input"
  else String.mk (remaining.take 20) ++ (if remaining.length > 20 then "…" else "")

/-- Found text as the code actually renders it: up to 20 characters,
followed by the three ASCII characters "..." if and only if the UTF-8 byte
length of the remaining input exceeds 20, or "end of input" when empty. -/
def found_text_amended (input : List Char) (pos : Nat) : String :=
  let remaining := input.drop pos
  if remaining.isEmpty then "end of input"
  else String.mk (remaining.take 20) ++ (if utf8Len remaining > 20 then "..." else "")

mutual

/-- Expressions free of the indentation-stack terminals `Indent` and
`Dedent`. -/
def no_indent_expr : GrammarExpr → Bool
  | .Indent => false
  | .Dedent => false
  | .Sequence items => no_indent_list items
  | .Choice choices => no_indent_list choices
  | .ZeroOrMore inner => no_indent_expr inner
  | .OneOrMore inner => no_indent_expr inner
  | .Optional inner => no_indent_expr inner
  | .Group inner => no_indent_expr inner
  | _ => true

/-- List version of `no_indent_expr`. -/
def no_indent_list : List GrammarExpr → Bool
  | [] => true
  | e :: rest => no_indent_expr e && no_indent_list rest

end

/-- Grammars whose rule bodies are all free of `Indent` and `Dedent`. -/
def no_indent_grammar (g : InputGrammar) : Bool :=
  g.rules.all (fun r => no_indent_expr r.expr)

/-- Shape test used to state what the meta-parser produced. -/
def as_rule_ref : GrammarExpr → Option String
  | .RuleRef n => some n
  | _ => none

/-- Shape test for the `SameIndent` terminal. -/
def is_same_indent : GrammarExpr → Bool
  | .SameIndent => true
  | _ => false

/-- Shape test for the `Indent` terminal. -/
def is_indent : GrammarExpr → Bool
  | .Indent => true
  | _ => false

/-- Rust `Result::is_ok` on the parse result. -/
def except_ok : Except ParseError ASTNode → Bool
  | .ok _ => true
  | .error _ => false

/-!
Concrete fixtures used by counterexamples and witnesses.
-/

/-- Grammar `s := ("x"?)*;` whose repetition body succeeds without
consuming input. -/
def g_rep_zero : InputGrammar :=
  ⟨[⟨"s", .ZeroOrMore (.Optional (.Literal "x"))⟩], "s"⟩

/-- Grammar `s := ("x"?)+;`, the one-or-more variant. -/
def g_rep_one : InputGrammar :=
  ⟨[⟨"s", .OneOrMore (.Optional (.Literal "x"))⟩], "s"⟩

/-- Grammar `s := "a" NEWLINE INDENT "b";` with an unmatched `INDENT`. -/
def g_indent_cex : InputGrammar :=
  ⟨[⟨"s", .Sequence [.Literal "a", .Newline, .Indent, .Literal "b"]⟩], "s"⟩

/-- Grammar with no rules at all (also what the meta-parser compiles from
empty grammar text). -/
def g_empty : InputGrammar := ⟨[], ""⟩

/-- Grammar `s := "a";`, free of indentation terminals. -/
def g_plain : InputGrammar := ⟨[⟨"s", .Literal "a"⟩], "s"⟩

/-- Grammar whose single literal contains a raw newline, as compiled from
the grammar text `a := "x␤y";` (the meta-parser reads string literals up
to the closing quote with no escape processing, so a literal may contain a
newline, and such a literal is not reclassified as a pattern). -/
def g_nl_literal : InputGrammar := ⟨[⟨"a", .Literal "x\ny"⟩], "a"⟩

/-- Concrete state on which the literal `"x"` fails: input is "y". -/
def pW : Parser := Parser.new ['y']

/-- The mutated state after that failed literal attempt (the
furthest-error fields record the expectation). -/
def pW_fail : Parser := (parse_literal "x" "r" pW).2

/-- Concrete state for the literal witness: input " ab". -/
def pHws : Parser := Parser.new [' ', 'a', 'b']

/-- State after matching the literal "ab" on " ab". -/
def pHws_after : Parser := (parse_literal "ab" "r" pHws).2

/-- Concrete state for the pattern witness: input "ab\nc". -/
def pPat : Parser := Parser.new ['a', 'b', '\n', 'c']

/-- State after matching the pattern `[a-z]+` on "ab\nc". -/
def pPat_after : Parser := (parse_pattern "[a-z]+" "r" pPat).2

/-!
Theorems.  Each claim of the specification audit is settled by exactly one
named theorem (plus a witness or counterexample where required); helper
lemmas are shared.
-/

/-- Helper: `get_child` is the head of `get_children`. -/
theorem get_child_eq_head (ast : ASTNode) (name : String) :
    ast.get_child name = (ast.get_children name).head? := by
  unfold ASTNode.get_child ASTNode.get_children
  cases ast.children.lookup name <;> simp

/-- C3: For every `record_error(expected, rule)` call: strictly greater
position replaces the expected set with the single new expectation and
updates `furthest_pos` and `furthest_rule`; equal position appends the
expectation only when not already present; smaller position leaves the
recorded state unchanged. -/
theorem C3_record_error_furthest (expected context_rule : String) (p : Parser) :
    record_error expected context_rule p = record_error_spec expected context_rule p := by
  unfold record_error record_error_spec
  rcases Nat.lt_trichotomy p.pos p.furthest_pos with h | h | h
  · have hc : compare p.pos p.furthest_pos = .lt := by
      rw [Nat.compare_eq_lt]
      exact h
    rw [hc]
    rw [if_neg (by omega), if_neg (by simp; omega)]
  · have hc : compare p.pos p.furthest_pos = .eq := by
      rw [Nat.compare_eq_eq]
      exact h
    rw [hc]
    rw [if_neg (by omega), if_pos (by simp [h])]
    by_cases hm : expected ∈ p.furthest_expected
    · rw [if_pos hm, if_pos (by simpa using hm)]
    · rw [if_neg hm, if_neg (by simpa using hm)]
  · have hc : compare p.pos p.furthest_pos = .gt := by
      rw [Nat.compare_eq_gt]
      exact h
    rw [hc, if_pos h]

/-- C4: Evaluating `RuleRef(name)` follows exactly the claimed resolution
chain: first child named `name` (with the current rule as new context),
else the node itself when its own name is `name`, else the node anyway
when it is a leaf, else the empty string. -/
theorem C4_rule_ref_resolution (g : OutputGrammar) (fuel : Nat) (name : String)
    (ast : ASTNode) (current_rule context : String) :
    generate_expr g (fuel + 1) (.RuleRef name) ast current_rule context =
      rule_ref_resolution g fuel name ast current_rule := by
  show (match ast.get_child name with
    | some child => generate_rule g fuel name child current_rule
    | none =>
      if ast.name == name then generate_rule g fuel name ast current_rule
      else if !(ast.value == "") && ast.children.isEmpty then
        generate_rule g fuel name ast current_rule
      else some "") = _
  rw [get_child_eq_head]
  unfold rule_ref_resolution
  cases h : (ast.get_children name).head? with
  | some child => rfl
  | none =>
    by_cases h1 : ast.name = name
    · simp [h1]
    · by_cases h2 : ast.value = ""
      · simp [h1, h2]
      · by_cases h3 : ast.children.isEmpty
        · simp [h1, h2, h3]
        · simp [h1, h2, h3]

/-- Helper: the generator's match scan agrees with the first-match
specification. -/
theorem eval_match_eq_spec (cases : List (String × String)) (default value : String) :
    eval_match cases default value = match_spec cases default value := by
  induction cases with
  | nil => rfl
  | cons c rest ih =>
    unfold eval_match match_spec
    by_cases h : value = c.1
    · simp [h, List.find?]
    · have h1 : (value == c.1) = false := by simpa using h
      have h2 : (c.1 == value) = false := by simpa using fun e => h e.symm
      simp only [List.find?, h1, h2, if_false]
      exact ih

/-- C8 counterexample: the claim's consequence "when `default` is
non-empty the emitted output is never empty for a non-empty input value"
fails when a case's replacement is itself empty: `Match{cases=[("x","")],
default="d"}` on a node of value `"x"` emits the empty string. -/
theorem C8_match_empty_replacement_cex :
    generate_expr ⟨[]⟩ 1 (.Match [("x", "")] "d") (ASTNode.with_value "n" "x") "r" ""
        = some "" ∧
      ¬(("x" : String) = "") ∧ ¬(("d" : String) = "") := by
  refine ⟨rfl, by decide, by decide⟩

/-- C8 (amended): `Match{cases, default}` scans the cases linearly and
returns the replacement of the first case whose pattern equals the node's
value; if no case matches it returns `default`, with the sentinel
`"@value"` replaced by the node's value; and when NO CASE MATCHES, a
non-empty `default` yields a non-empty output for a non-empty value. -/
theorem C8_match_semantics :
    (∀ (g : OutputGrammar) (fuel : Nat) (cases : List (String × String))
      (default : String) (ast : ASTNode) (current_rule context : String),
      generate_expr g (fuel + 1) (.Match cases default) ast current_rule context =
        some (eval_match cases default ast.value)) ∧
    (∀ (cases : List (String × String)) (default value : String),
      eval_match cases default value = match_spec cases default value) ∧
    (∀ (cases : List (String × String)) (default value : String),
      (∀ c ∈ cases, c.1 ≠ value) → default ≠ "" → value ≠ "" →
        eval_match cases default value ≠ "") := by
  refine ⟨fun g fuel cases default ast cur ctx => rfl, eval_match_eq_spec, ?_⟩
  intro cases default value hnone hd hv
  have hfind : cases.find? (fun c => c.1 == value) = none := by
    rw [List.find?_eq_none]
    intro c hc
    simpa using hnone c hc
  rw [eval_match_eq_spec]
  unfold match_spec
  rw [hfind]
  by_cases h : default = "@value"
  · simp [h, hv]
  · simp [h, hd]

/-- C8 witness: the amended non-emptiness consequence at a concrete
no-case-matches input. -/
theorem C8_match_semantics_witness :
    eval_match [("a", "b")] "d" "x" ≠ "" := by
  exact C8_match_semantics.2.2 [("a", "b")] "d" "x" (by decide) (by decide) (by decide)

/-- C9 counterexample: on a remaining input of 21 characters the code
renders the Found field with the three ASCII characters "..." rather than
the single horizontal-ellipsis character the claim states. -/
theorem C9_found_ellipsis_cex :
    get_found_text (List.replicate 21 'a') 0 ≠ found_text_claimed (List.replicate 21 'a') 0 := by
  decide

/-- C9 (amended): the Found field of the rendered parse error is exactly
the next up-to-20 characters of the remaining input, followed by the
three ASCII characters "..." if and only if the UTF-8 byte length of the
remaining input exceeds 20, or "end of input" when the remaining input is
empty. -/
theorem C9_found_text_spec :
    (∀ (input : List Char) (pos : Nat),
      get_found_text input pos = found_text_amended input pos) ∧
    (∀ p : Parser, (build_error p).found = get_found_text p.input p.furthest_pos) := by
  constructor
  · intro input pos
    unfold get_found_text found_text_amended
    by_cases he : (input.drop pos).isEmpty
    · simp [he]
    · by_cases hl : utf8Len (input.drop pos) > 20
      · simp [he, hl]
      · simp [he, hl]
  · intro p
    rfl

/-- C6: The meta-parser does NOT reserve `SAME_INDENT`: compiling the
grammar text `r := SAME_INDENT ;` yields a rule whose body is
`RuleRef("SAME_INDENT")`, not the `SameIndent` terminal — even though the
bare identifier `INDENT` in the same position does compile to the
`Indent` terminal. -/
theorem C6_same_indent_not_reserved :
    (MetaParser.parse_input_grammar 50 (MetaParser.new "r := SAME_INDENT ;")).map
        (fun g => (g.start_rule, g.rules.map
          (fun r => (r.name, as_rule_ref r.expr, is_same_indent r.expr)))) =
      some ("r", [("r", some "SAME_INDENT", false)]) ∧
    (MetaParser.parse_input_grammar 50 (MetaParser.new "r := INDENT ;")).map
        (fun g => g.rules.map (fun r => is_indent r.expr)) =
      some [true] := by
  constructor
  · rfl
  · rfl

/-- Helper: `record_error` touches only the furthest-error fields. -/
theorem record_error_cursor (e r : String) (p : Parser) :
    (record_error e r p).input = p.input ∧ (record_error e r p).pos = p.pos ∧
    (record_error e r p).indent_stack = p.indent_stack ∧
    (record_error e r p).pending_dedents = p.pending_dedents ∧
    (record_error e r p).at_line_start = p.at_line_start ∧
    (record_error e r p).current_line_indent = p.current_line_indent := by
  unfold record_error
  split
  · simp
  · split <;> simp

/-- Helper: on empty remaining input, `parse_literal "x"` fails, keeping
the input, position and indentation fields. -/
theorem parse_literal_x_empty (ctx : String) (p : Parser)
    (hrem : p.input.drop p.pos = []) :
    parse_literal "x" ctx p =
      (none, record_error ("\"" ++ "x" ++ "\"") ctx (skip_whitespace_no_newline p)) := by
  unfold parse_literal
  have hs : skip_whitespace_no_newline p = { p with pos := p.pos + 0 } := by
    unfold skip_whitespace_no_newline
    rw [hrem]
    rfl
  rw [hs]
  have hrem2 : p.input.drop (p.pos + 0) = [] := by simpa using hrem
  simp only [hrem2]
  rfl

/-- Helper: on empty input, one attempt of the repetition body
`Optional(Literal "x")` either runs out of fuel or succeeds while
consuming nothing (the literal fails, the optional restores the cursor and
succeeds with `_optional_empty`). -/
theorem opt_lit_no_progress (g : InputGrammar) (fuel : Nat) (ctx : String) (p : Parser)
    (hin : p.input = []) :
    parse_expr g fuel (.Optional (.Literal "x")) ctx p = none ∨
    ∃ p', parse_expr g fuel (.Optional (.Literal "x")) ctx p =
        some (some (ASTNode.new "_optional_empty"), p') ∧
      p'.input = [] ∧ p'.pos = p.pos := by
  match fuel with
  | 0 => exact Or.inl rfl
  | 1 => exact Or.inl rfl
  | fuel + 2 =>
    right
    have hrem : p.input.drop p.pos = [] := by rw [hin]; simp
    have hlit : parse_expr g (fuel + 1) (.Literal "x") ctx p =
        some (parse_literal "x" ctx p) := rfl
    have hfail := parse_literal_x_empty ctx p hrem
    refine ⟨restore_cursor p (parse_literal "x" ctx p).2, ?_, ?_, ?_⟩
    · show (match parse_expr g (fuel + 1) (.Literal "x") ctx p with
        | none => none
        | some (some child, p1) => some (some child, p1)
        | some (none, p1) =>
          some (some (ASTNode.new "_optional_empty"), restore_cursor p p1)) = _
      rw [hlit, hfail]
    · show (parse_literal "x" ctx p).2.input = []
      rw [hfail]
      have := (record_error_cursor ("\"" ++ "x" ++ "\"") ctx (skip_whitespace_no_newline p)).1
      rw [this]
      exact hin
    · simp [restore_cursor]

/-- Helper: on empty input the repetition loop over `Optional(Literal
"x")` never returns, whatever the fuel: the body always succeeds without
progress and the loop only exits on failure. -/
theorem rep_loop_empty_diverges (g : InputGrammar) (fuel : Nat) (ctx : String)
    (node : ASTNode) (p : Parser) (hin : p.input = []) :
    parse_rep_loop g fuel (.Optional (.Literal "x")) ctx node p = none := by
  induction fuel generalizing node p with
  | zero => rfl
  | succ fuel ih =>
    show (match parse_expr g fuel (.Optional (.Literal "x")) ctx p with
      | none => none
      | some (some child, p1) =>
        parse_rep_loop g fuel (.Optional (.Literal "x")) ctx (rep_merge node child) p1
      | some (none, p1) => some (some node, restore_cursor p p1)) = none
    rcases opt_lit_no_progress g fuel ctx p hin with h | ⟨p', h, hin', _⟩
    · rw [h]
    · rw [h]
      exact ih _ p' hin'


/-- Helper: an out-of-fuel start rule propagates to `parse`. -/
theorem parse_none_of_rule_none (g : InputGrammar) (fuel : Nat) (input : List Char)
    (h : parse_rule g fuel g.start_rule (update_line_indent (Parser.new input)) = none) :
    parse g fuel input = none := by
  unfold parse
  simp only [h]

/-- Helper: an out-of-fuel rule body propagates to `parse_rule`. -/
theorem parse_rule_none_of_expr_none (g : InputGrammar) (fuel : Nat) (name : String)
    (rule : InputRule) (p : Parser) (hf : g.find_rule name = some rule)
    (h : parse_expr g fuel rule.expr name p = none) :
    parse_rule g (fuel + 1) name p = none := by
  simp only [parse_rule, hf, h]

/-- Helper: `ZeroOrMore` evaluation is the repetition loop. -/
theorem parse_expr_zero_or_more (g : InputGrammar) (fuel : Nat) (inner : GrammarExpr)
    (ctx : String) (p : Parser) :
    parse_expr g (fuel + 1) (.ZeroOrMore inner) ctx p =
      parse_rep_loop g fuel inner ctx (ASTNode.new "_repeat") p := rfl

/-- Helper: an out-of-fuel repetition loop after a first success
propagates to `OneOrMore`. -/
theorem one_or_more_none_of_loop_none (g : InputGrammar) (fuel : Nat)
    (inner : GrammarExpr) (ctx : String) (p p1 : Parser) (first : ASTNode)
    (h1 : parse_expr g fuel inner ctx p = some (some first, p1))
    (h2 : parse_rep_loop g fuel inner ctx (rep_merge (ASTNode.new "_repeat") first) p1 = none) :
    parse_expr g (fuel + 1) (.OneOrMore inner) ctx p = none := by
  simp only [parse_expr, h1, h2]

/-- Helper: an out-of-fuel first attempt propagates to `OneOrMore`. -/
theorem one_or_more_none_of_first_none (g : InputGrammar) (fuel : Nat)
    (inner : GrammarExpr) (ctx : String) (p : Parser)
    (h1 : parse_expr g fuel inner ctx p = none) :
    parse_expr g (fuel + 1) (.OneOrMore inner) ctx p = none := by
  simp only [parse_expr]
  rw [h1]

/-- C2 (code bug): with the repetition body `("x"?)`, which succeeds while
consuming no input, both `ZeroOrMore` and `OneOrMore` parsing never
terminates on empty input — there is no progress check, contradicting the
specification's requirement that the implementation detect "no progress"
and exit the loop.  In the fuel model: the parse returns no result for
every fuel. -/
theorem C2_repetition_no_progress_diverges (fuel : Nat) :
    parse g_rep_zero fuel [] = none ∧ parse g_rep_one fuel [] = none := by
  have hin : (update_line_indent (Parser.new [])).input = [] := rfl
  constructor
  · match fuel with
    | 0 => rfl
    | 1 => rfl
    | fuel + 2 =>
      refine parse_none_of_rule_none _ _ _ ?_
      refine parse_rule_none_of_expr_none _ _ _
        ⟨"s", .ZeroOrMore (.Optional (.Literal "x"))⟩ _ rfl ?_
      rw [parse_expr_zero_or_more]
      exact rep_loop_empty_diverges _ _ _ _ _ hin
  · match fuel with
    | 0 => rfl
    | 1 => rfl
    | fuel + 2 =>
      refine parse_none_of_rule_none _ _ _ ?_
      refine parse_rule_none_of_expr_none _ _ _
        ⟨"s", .OneOrMore (.Optional (.Literal "x"))⟩ _ rfl ?_
      rcases opt_lit_no_progress g_rep_one fuel "s" (update_line_indent (Parser.new []))
          hin with h | ⟨p', h, hin', _⟩
      · exact one_or_more_none_of_first_none _ _ _ _ _ h
      · exact one_or_more_none_of_loop_none _ _ _ _ _ _ _ h
          (rep_loop_empty_diverges _ _ _ _ p' hin')

/-- C10: When the grammar's start rule is not a key of its rules map,
`parse` terminates with a parse error for every source text — the rule
lookup fails, which is an ordinary parse failure, and the error branch
builds a `ParseError`; `parse` never returns `Ok`. -/
theorem C10_missing_start_rule_errors (g : InputGrammar) (fuel : Nat) (input : List Char)
    (h : g.find_rule g.start_rule = none) :
    parse g (fuel + 1) input =
      some (.error (build_error (skip_whitespace_no_newline (update_line_indent (Parser.new input)))),
        skip_whitespace_no_newline (update_line_indent (Parser.new input))) := by
  have hrule : parse_rule g (fuel + 1) g.start_rule (update_line_indent (Parser.new input)) =
      some (none, update_line_indent (Parser.new input)) := by
    simp only [parse_rule, h]
  unfold parse
  simp only [hrule]

/-- C10 witness: the grammar compiled from empty grammar text has no rules
and an empty start-rule name; parsing the source text "ab" with it
terminates returning an error. -/
theorem C10_missing_start_rule_errors_witness :
    MetaParser.parse_input_grammar 5 (MetaParser.new "") = some g_empty ∧
    (parse g_empty 4 "ab".data).map (fun r => except_ok r.1) = some false := by
  constructor
  · rfl
  · rw [C10_missing_start_rule_errors g_empty 3 "ab".data rfl]
    rfl

/-- Helper: `restore_cursor` makes the five cursor fields those of the
snapshot. -/
theorem restore_cursor_cursor (snap p : Parser) :
    (restore_cursor snap p).cursor = snap.cursor := rfl

/-- Helper: when the item loop of a sequence fails, the returned state's
cursor is the entry snapshot's. -/
theorem seq_items_fail_cursor (g : InputGrammar) (fuel : Nat) (items : List GrammarExpr)
    (ctx : String) (node : ASTNode) (snap p p' : Parser)
    (h : parse_seq_items g fuel items ctx node snap p = some (none, p')) :
    p'.cursor = snap.cursor := by
  induction fuel generalizing items node p with
  | zero => exact absurd h (by simp [parse_seq_items])
  | succ fuel ih =>
    match items with
    | [] => simp [parse_seq_items] at h
    | item :: rest =>
      simp only [parse_seq_items] at h
      cases h1 : parse_expr g fuel item ctx p with
      | none => rw [h1] at h; simp at h
      | some r =>
        obtain ⟨res, p1⟩ := r
        cases res with
        | some child =>
          rw [h1] at h
          exact ih rest (seq_merge node child) p1 h
        | none =>
          rw [h1] at h
          simp at h
          rw [← h]
          exact restore_cursor_cursor snap p1

/-- Helper: when every alternative of a choice fails, the returned state's
cursor is the entry snapshot's (provided the running state already agrees
with the snapshot, as it does at entry). -/
theorem choice_list_fail_cursor (g : InputGrammar) (fuel : Nat) (cs : List GrammarExpr)
    (ctx : String) (snap p p' : Parser) (hp : p.cursor = snap.cursor)
    (h : parse_choice_list g fuel cs ctx snap p = some (none, p')) :
    p'.cursor = snap.cursor := by
  induction fuel generalizing cs p with
  | zero => exact absurd h (by simp [parse_choice_list])
  | succ fuel ih =>
    match cs with
    | [] =>
      simp [parse_choice_list] at h
      rw [← h]
      exact hp
    | c :: rest =>
      simp only [parse_choice_list] at h
      cases h1 : parse_expr g fuel c ctx p with
      | none => rw [h1] at h; simp at h
      | some r =>
        obtain ⟨res, p1⟩ := r
        cases res with
        | some child => rw [h1] at h; simp at h
        | none =>
          rw [h1] at h
          exact ih rest (restore_cursor snap p1) (restore_cursor_cursor snap p1) h

/-- C1: Every backtrackable construct that fails an attempt restores the
full five-field cursor state to the snapshot taken immediately before the
attempt: a failing `Sequence` returns with the entry cursor; each failing
`Choice` alternative hands the next alternative (and, after the last, the
caller) a state whose cursor is the entry cursor; each failing repetition
step returns the accumulated node with the iteration-entry cursor; a
failing `Optional` body succeeds with `_optional_empty` at the entry
cursor.  The furthest-error fields are deliberately not restored. -/
theorem C1_backtrack_restores_cursor :
    (∀ (g : InputGrammar) (fuel : Nat) (items : List GrammarExpr) (ctx : String)
      (p p' : Parser),
      parse_expr g (fuel + 1) (.Sequence items) ctx p = some (none, p') →
        p'.cursor = p.cursor) ∧
    (∀ (g : InputGrammar) (fuel : Nat) (c : GrammarExpr) (cs : List GrammarExpr)
      (ctx : String) (snap p p' : Parser),
      parse_expr g fuel c ctx p = some (none, p') →
        parse_choice_list g (fuel + 1) (c :: cs) ctx snap p =
          parse_choice_list g fuel cs ctx snap (restore_cursor snap p') ∧
        (restore_cursor snap p').cursor = snap.cursor) ∧
    (∀ (g : InputGrammar) (fuel : Nat) (cs : List GrammarExpr) (ctx : String)
      (p p' : Parser),
      parse_expr g (fuel + 1) (.Choice cs) ctx p = some (none, p') →
        p'.cursor = p.cursor) ∧
    (∀ (g : InputGrammar) (fuel : Nat) (inner : GrammarExpr) (ctx : String)
      (node : ASTNode) (p p' : Parser),
      parse_expr g fuel inner ctx p = some (none, p') →
        parse_rep_loop g (fuel + 1) inner ctx node p = some (some node, restore_cursor p p') ∧
        (restore_cursor p p').cursor = p.cursor) ∧
    (∀ (g : InputGrammar) (fuel : Nat) (inner : GrammarExpr) (ctx : String) (p p' : Parser),
      parse_expr g fuel inner ctx p = some (none, p') →
        parse_expr g (fuel + 1) (.Optional inner) ctx p =
          some (some (ASTNode.new "_optional_empty"), restore_cursor p p') ∧
        (restore_cursor p p').cursor = p.cursor) := by
  refine ⟨?_, ?_, ?_, ?_, ?_⟩
  · intro g fuel items ctx p p' h
    simp only [parse_expr] at h
    exact seq_items_fail_cursor g fuel items ctx (ASTNode.new ctx) p p p' h
  · intro g fuel c cs ctx snap p p' h
    constructor
    · simp only [parse_choice_list, h]
    · exact restore_cursor_cursor snap p'
  · intro g fuel cs ctx p p' h
    simp only [parse_expr] at h
    exact choice_list_fail_cursor g fuel cs ctx p p p' rfl h
  · intro g fuel inner ctx node p p' h
    constructor
    · simp only [parse_rep_loop, h]
    · exact restore_cursor_cursor p p'
  · intro g fuel inner ctx p p' h
    constructor
    · simp only [parse_expr, h]
    · exact restore_cursor_cursor p p'

/-- C1 witness: the rollback facts at a concrete failing attempt — the
literal `"x"` failing against input "y" inside each construct. -/
theorem C1_backtrack_restores_cursor_witness :
    (restore_cursor pW pW_fail).cursor = pW.cursor ∧
    parse_choice_list g_plain 2 [.Literal "x"] "r" pW pW =
      parse_choice_list g_plain 1 [] "r" pW (restore_cursor pW pW_fail) ∧
    parse_rep_loop g_plain 2 (.Literal "x") "r" (ASTNode.new "_repeat") pW =
      some (some (ASTNode.new "_repeat"), restore_cursor pW pW_fail) ∧
    parse_expr g_plain 2 (.Optional (.Literal "x")) "r" pW =
      some (some (ASTNode.new "_optional_empty"), restore_cursor pW pW_fail) := by
  have h : parse_expr g_plain 1 (.Literal "x") "r" pW = some (none, pW_fail) := rfl
  refine ⟨?_, ?_, ?_, ?_⟩
  · have hseq := C1_backtrack_restores_cursor.1 g_plain 2 [.Literal "x"] "r" pW
      (restore_cursor pW pW_fail) (by rfl)
    exact hseq
  · exact (C1_backtrack_restores_cursor.2.1 g_plain 1 (.Literal "x") [] "r" pW pW pW_fail h).1
  · exact (C1_backtrack_restores_cursor.2.2.2.1 g_plain 1 (.Literal "x") "r"
      (ASTNode.new "_repeat") pW pW_fail h).1
  · exact (C1_backtrack_restores_cursor.2.2.2.2 g_plain 1 (.Literal "x") "r" pW pW_fail h).1

/-- Helper: every character inside the skipped horizontal-whitespace run
is horizontal whitespace. -/
theorem countHws_take_hws (l : List Char) :
    ∀ c ∈ l.take (countHws l), isHws c = true := by
  induction l with
  | nil => simp
  | cons a rest ih =>
    by_cases h : isHws a
    · simp only [countHws, h, if_pos]
      intro c hc
      rw [List.take_succ_cons] at hc
      rcases List.mem_cons.mp hc with hc | hc
      · rw [hc]; exact h
      · exact ih c hc
    · simp [countHws, h]

/-- Helper: horizontal whitespace is never a newline. -/
theorem isHws_ne_newline (c : Char) (h : isHws c = true) : c ≠ '\n' := by
  intro he
  rw [he] at h
  exact absurd h (by decide)

/-- Helper: taking as many elements as `takeWhile` keeps yields exactly
the `takeWhile` run. -/
theorem take_takeWhile_len {α : Type} (q : α → Bool) (l : List α) :
    l.take (l.takeWhile q).length = l.takeWhile q := by
  induction l with
  | nil => rfl
  | cons a rest ih =>
    by_cases h : q a
    · simp [List.takeWhile_cons, h, ih]
    · simp [List.takeWhile_cons, h]

/-- Helper: a successful `isPrefixOf` means taking that many elements
yields the candidate. -/
theorem isPrefixOf_take {α : Type} [DecidableEq α] (l1 l2 : List α)
    (h : l1.isPrefixOf l2 = true) : l2.take l1.length = l1 := by
  induction l1 generalizing l2 with
  | nil => rfl
  | cons a t1 ih =>
    cases l2 with
    | nil => exact absurd h (by simp [List.isPrefixOf])
    | cons b t2 =>
      simp only [List.isPrefixOf, Bool.and_eq_true, beq_iff_eq] at h
      simp [h.1, ih t2 h.2]

/-- Helper: an anchored quantified-class match consists of characters of
the class and is the corresponding prefix of the input. -/
theorem matchQuant_sound (cls : CharClass) (q : Quant) (l m : List Char)
    (h : matchQuant cls q l = some m) :
    (∀ c ∈ m, classMatches cls c = true) ∧ l.take m.length = m := by
  match q, l with
  | .one, [] => exact absurd h (by simp [matchQuant])
  | .one, c :: rest =>
    by_cases hm : classMatches cls c
    · simp only [matchQuant, hm, if_pos] at h
      rw [← Option.some.inj h]
      refine ⟨?_, rfl⟩
      intro x hx
      rw [List.mem_singleton.mp hx]
      exact hm
    · simp [matchQuant, hm] at h
  | .plus, l =>
    simp only [matchQuant] at h
    by_cases he : (l.takeWhile (classMatches cls)).isEmpty
    · simp [he] at h
    · simp only [he, Bool.false_eq_true, not_false_eq_true, reduceIte] at h
      rw [← Option.some.inj h]
      refine ⟨fun c hc => List.mem_takeWhile_imp hc, ?_⟩
      exact take_takeWhile_len (classMatches cls) l
  | .star, l =>
    simp only [matchQuant] at h
    rw [← Option.some.inj h]
    refine ⟨fun c hc => List.mem_takeWhile_imp hc, ?_⟩
    exact take_takeWhile_len (classMatches cls) l
  | .opt, [] =>
    simp only [matchQuant] at h
    rw [← Option.some.inj h]
    exact ⟨by simp, rfl⟩
  | .opt, c :: rest =>
    by_cases hm : classMatches cls c
    · simp only [matchQuant, hm, if_pos] at h
      rw [← Option.some.inj h]
      refine ⟨?_, rfl⟩
      intro x hx
      rw [List.mem_singleton.mp hx]
      exact hm
    · simp only [matchQuant, hm, Bool.false_eq_true, reduceIte] at h
      rw [← Option.some.inj h]
      exact ⟨by simp, rfl⟩

/-- C5 counterexample: a `Literal` whose string contains a raw newline —
compilable from grammar text, since string literals are read to the
closing quote with no escape processing — matches across the `'\n'`: the
claim that matched text never extends across a newline fails. -/
theorem C5_literal_crosses_newline_cex :
    MetaParser.parse_input_grammar 50 (MetaParser.new "a := \"x\ny\";") = some g_nl_literal ∧
    (parse g_nl_literal 5 ['x', '\n', 'y']).map (fun r => (except_ok r.1, r.2.pos)) =
      some (true, 3) ∧
    '\n' ∈ (((Parser.new ['x', '\n', 'y']).input.drop 0).take 3) := by
  refine ⟨rfl, rfl, by decide⟩

/-- C5 (amended): matching first skips only horizontal whitespace (space,
tab, carriage return); a `Literal` whose string contains no newline never
consumes a `'\n'`; and a `Pattern` whose character class does not admit
`'\n'` never consumes a `'\n'`.  (A literal containing a raw newline, or a
pattern class admitting `'\n'`, can consume newlines, which only the
`Newline` terminal is otherwise allowed to do.) -/
theorem C5_whitespace_and_newline_discipline :
    (∀ (p : Parser) (c : Char),
      c ∈ (p.input.drop p.pos).take ((skip_whitespace_no_newline p).pos - p.pos) →
        c = ' ' ∨ c = '\t' ∨ c = '\r') ∧
    (∀ (lit ctx : String) (p : Parser) (node : ASTNode) (p' : Parser),
      '\n' ∉ lit.data → parse_literal lit ctx p = (some node, p') →
        ∀ c ∈ (p.input.drop p.pos).take (p'.pos - p.pos), c ≠ '\n') ∧
    (∀ (pat ctx : String) (p : Parser) (node : ASTNode) (p' : Parser)
      (cls : CharClass) (q : Quant),
      parsePatShape pat.data = some (cls, q) → classMatches cls '\n' = false →
      parse_pattern pat ctx p = (some node, p') →
        ∀ c ∈ (p.input.drop p.pos).take (p'.pos - p.pos), c ≠ '\n') := by
  have hskip : ∀ p : Parser,
      (skip_whitespace_no_newline p).pos - p.pos = countHws (p.input.drop p.pos) := by
    intro p
    show p.pos + countHws (p.input.drop p.pos) - p.pos = _
    omega
  refine ⟨?_, ?_, ?_⟩
  · intro p c hc
    rw [hskip] at hc
    have hh := countHws_take_hws (p.input.drop p.pos) c hc
    revert hh
    unfold isHws
    by_cases h1 : c = ' '
    · intro _; exact Or.inl h1
    · by_cases h2 : c = '\t'
      · intro _; exact Or.inr (Or.inl h2)
      · by_cases h3 : c = '\r'
        · intro _; exact Or.inr (Or.inr h3)
        · intro hh
          exact absurd hh (by simp [h1, h2, h3])
  · intro lit ctx p node p' hnl h c hc
    unfold parse_literal at h
    by_cases hp : lit.data.isPrefixOf
        ((skip_whitespace_no_newline p).input.drop (skip_whitespace_no_newline p).pos)
    · simp only [hp, if_pos] at h
      rw [Prod.mk.injEq] at h
      have hpos : p'.pos = p.pos + countHws (p.input.drop p.pos) + lit.length := by
        rw [← h.2]
        show (skip_whitespace_no_newline p).pos + lit.length = _
        simp [skip_whitespace_no_newline]
      set k := countHws (p.input.drop p.pos) with hk
      have hsub : p'.pos - p.pos = k + lit.length := by omega
      rw [hsub, List.take_add] at hc
      rcases List.mem_append.mp hc with hc | hc
      · exact isHws_ne_newline c (countHws_take_hws _ c hc)
      · have hdd : (p.input.drop p.pos).drop k = p.input.drop (p.pos + k) := by
          rw [List.drop_drop]
        have hp2 : lit.data.isPrefixOf (p.input.drop (p.pos + k)) = true := by
          have hx := hp
          simpa [skip_whitespace_no_newline, hk] using hx
        have htake : (p.input.drop (p.pos + k)).take lit.data.length = lit.data :=
          isPrefixOf_take lit.data _ hp2
        rw [hdd] at hc
        have hlen : lit.length = lit.data.length := rfl
        rw [hlen, htake] at hc
        intro he
        rw [he] at hc
        exact hnl hc
    · rw [if_neg (by simpa using hp), Prod.mk.injEq] at h
      exact absurd h.1 (by simp)
  · intro pat ctx p node p' cls q hshape hnl h c hc
    unfold parse_pattern at h
    dsimp only at h
    have hfind : regexFind pat ((skip_whitespace_no_newline p).input.drop
        (skip_whitespace_no_newline p).pos) =
        matchQuant cls q (p.input.drop (p.pos + countHws (p.input.drop p.pos))) := by
      unfold regexFind
      rw [hshape]
      rfl
    rw [hfind] at h
    cases hm : matchQuant cls q (p.input.drop (p.pos + countHws (p.input.drop p.pos))) with
    | none =>
      rw [hm] at h
      simp at h
    | some m =>
      rw [hm] at h
      dsimp only at h
      rw [Prod.mk.injEq] at h
      have hpos : p'.pos = p.pos + countHws (p.input.drop p.pos) + m.length := by
        rw [← h.2]
        show (skip_whitespace_no_newline p).pos + m.length = _
        simp [skip_whitespace_no_newline]
      set k := countHws (p.input.drop p.pos) with hk
      have hsub : p'.pos - p.pos = k + m.length := by omega
      rw [hsub, List.take_add] at hc
      rcases List.mem_append.mp hc with hc | hc
      · exact isHws_ne_newline c (countHws_take_hws _ c hc)
      · obtain ⟨hmem, htake⟩ := matchQuant_sound cls q _ m hm
        have hdd : (p.input.drop p.pos).drop k = p.input.drop (p.pos + k) := by
          rw [List.drop_drop]
        rw [hdd, htake] at hc
        intro he
        have := hmem c hc
        rw [he, hnl] at this
        exact Bool.noConfusion this

/-- C5 witness: the amended discipline at concrete inputs — whitespace
skipping on " ab", the literal "ab" on " ab", and the pattern `[a-z]+` on
"ab\nc". -/
theorem C5_whitespace_and_newline_discipline_witness :
    (' ' = ' ' ∨ ' ' = '\t' ∨ ' ' = '\r') ∧ ('a' : Char) ≠ '\n' ∧ ('b' : Char) ≠ '\n' := by
  refine ⟨?_, ?_, ?_⟩
  · exact C5_whitespace_and_newline_discipline.1 pHws ' ' (by decide)
  · exact C5_whitespace_and_newline_discipline.2.1 "ab" "r" pHws
      (ASTNode.with_value "_literal" "ab") pHws_after (by decide) rfl 'a' (by decide)
  · exact C5_whitespace_and_newline_discipline.2.2 "[a-z]+" "r" pPat
      (ASTNode.with_value "_pattern" "ab") pPat_after ⟨false, [.range 'a' 'z']⟩ .plus
      rfl (by decide) rfl 'b' (by decide)

/-- C7 counterexample: with the grammar `s := "a" NEWLINE INDENT "b";`,
whose `INDENT` is never matched by a `DEDENT`, parsing "a\n b" succeeds
while the final indent stack is `[1, 0]` (top first), not `[0]`:
`Parser::parse` performs no final indentation check. -/
theorem C7_indent_stack_not_reset_cex :
    (parse g_indent_cex 10 ['a', '\n', ' ', 'b']).map
        (fun r => (except_ok r.1, r.2.indent_stack, r.2.pending_dedents)) =
      some (true, [1, 0], 0) ∧
    ¬([1, 0] = ([0] : List Nat)) := by
  refine ⟨rfl, by decide⟩

/-- Helper: second components of equal optional pairs. -/
theorem opt_pair_snd {α β : Type} {a r : α} {b p' : β} (h : some (a, b) = some (r, p')) :
    p' = b :=
  ((Prod.mk.injEq _ _ _ _).mp (Option.some.inj h)).2.symm

/-- Helper: `update_line_indent` keeps the indent stack and pending
dedents. -/
theorem update_line_indent_stack (p : Parser) :
    (update_line_indent p).indent_stack = p.indent_stack ∧
    (update_line_indent p).pending_dedents = p.pending_dedents := by
  unfold update_line_indent
  split <;> exact ⟨rfl, rfl⟩

/-- Helper: `parse_literal` keeps the indent stack and pending dedents. -/
theorem parse_literal_stack (lit ctx : String) (p : Parser) :
    ((parse_literal lit ctx p).2).indent_stack = p.indent_stack ∧
    ((parse_literal lit ctx p).2).pending_dedents = p.pending_dedents := by
  unfold parse_literal
  dsimp only
  split
  · exact ⟨rfl, rfl⟩
  · have h := record_error_cursor ("\"" ++ lit ++ "\"") ctx (skip_whitespace_no_newline p)
    exact ⟨h.2.2.1, h.2.2.2.1⟩

/-- Helper: `parse_pattern` keeps the indent stack and pending dedents. -/
theorem parse_pattern_stack (pat ctx : String) (p : Parser) :
    ((parse_pattern pat ctx p).2).indent_stack = p.indent_stack ∧
    ((parse_pattern pat ctx p).2).pending_dedents = p.pending_dedents := by
  unfold parse_pattern
  dsimp only
  split
  · exact ⟨rfl, rfl⟩
  · have h := record_error_cursor ("pattern /" ++ pat ++ "/") ctx (skip_whitespace_no_newline p)
    exact ⟨h.2.2.1, h.2.2.2.1⟩

/-- Helper: `parse_newline` keeps the indent stack and pending dedents. -/
theorem parse_newline_stack (ctx : String) (p : Parser) :
    ((parse_newline ctx p).2).indent_stack = p.indent_stack ∧
    ((parse_newline ctx p).2).pending_dedents = p.pending_dedents := by
  unfold parse_newline
  dsimp only
  split
  · have h := record_error_cursor "NEWLINE" ctx (skip_whitespace_no_newline p)
    exact ⟨h.2.2.1, h.2.2.2.1⟩
  · rename_i p2 heq
    have h := update_line_indent_stack
      { p2 with pos := p2.pos + blank_lines_len (p2.input.drop p2.pos), at_line_start := true }
    refine ⟨h.1.trans ?_, h.2.trans ?_⟩ <;>
      · show _ = _
        split at heq
        · exact (Option.some.inj heq) ▸ rfl
        · exact (Option.some.inj heq) ▸ rfl
        · exact absurd heq (by simp)

/-- Helper: `parse_same_indent` keeps the indent stack and pending
dedents. -/
theorem parse_same_indent_stack (ctx : String) (p : Parser) :
    ((parse_same_indent ctx p).2).indent_stack = p.indent_stack ∧
    ((parse_same_indent ctx p).2).pending_dedents = p.pending_dedents := by
  unfold parse_same_indent
  dsimp only
  split
  · exact ⟨rfl, rfl⟩
  · have h := record_error_cursor "SAME_INDENT" ctx p
    exact ⟨h.2.2.1, h.2.2.2.1⟩

/-- Helper: a found rule of an indentation-free grammar has an
indentation-free body. -/
theorem find_rule_no_indent (g : InputGrammar) (hg : no_indent_grammar g = true)
    (name : String) (rule : InputRule) (hf : g.find_rule name = some rule) :
    no_indent_expr rule.expr = true := by
  unfold InputGrammar.find_rule at hf
  have hmem := List.mem_of_find?_eq_some hf
  exact (List.all_eq_true.mp hg) rule hmem

/-- Helper: in a grammar free of `Indent`/`Dedent`, every parser function
preserves the indent stack and the pending-dedent count, whatever the
outcome. -/
theorem parse_preserves_indent (g : InputGrammar) (hg : no_indent_grammar g = true) :
    ∀ fuel : Nat,
      (∀ (name : String) (p : Parser) (r : Option ASTNode) (p' : Parser),
        parse_rule g fuel name p = some (r, p') →
          p'.indent_stack = p.indent_stack ∧ p'.pending_dedents = p.pending_dedents) ∧
      (∀ (e : GrammarExpr) (ctx : String) (p : Parser) (r : Option ASTNode) (p' : Parser),
        no_indent_expr e = true → parse_expr g fuel e ctx p = some (r, p') →
          p'.indent_stack = p.indent_stack ∧ p'.pending_dedents = p.pending_dedents) ∧
      (∀ (items : List GrammarExpr) (ctx : String) (node : ASTNode) (snap p : Parser)
        (r : Option ASTNode) (p' : Parser),
        no_indent_list items = true →
        snap.indent_stack = p.indent_stack → snap.pending_dedents = p.pending_dedents →
        parse_seq_items g fuel items ctx node snap p = some (r, p') →
          p'.indent_stack = p.indent_stack ∧ p'.pending_dedents = p.pending_dedents) ∧
      (∀ (cs : List GrammarExpr) (ctx : String) (snap p : Parser)
        (r : Option ASTNode) (p' : Parser),
        no_indent_list cs = true →
        snap.indent_stack = p.indent_stack → snap.pending_dedents = p.pending_dedents →
        parse_choice_list g fuel cs ctx snap p = some (r, p') →
          p'.indent_stack = p.indent_stack ∧ p'.pending_dedents = p.pending_dedents) ∧
      (∀ (inner : GrammarExpr) (ctx : String) (node : ASTNode) (p : Parser)
        (r : Option ASTNode) (p' : Parser),
        no_indent_expr inner = true →
        parse_rep_loop g fuel inner ctx node p = some (r, p') →
          p'.indent_stack = p.indent_stack ∧ p'.pending_dedents = p.pending_dedents) := by
  intro fuel
  induction fuel with
  | zero =>
    refine ⟨?_, ?_, ?_, ?_, ?_⟩
    · intro name p r p' h
      exact absurd h (by simp [parse_rule])
    · intro e ctx p r p' _ h
      exact absurd h (by simp [parse_expr])
    · intro items ctx node snap p r p' _ _ _ h
      exact absurd h (by simp [parse_seq_items])
    · intro cs ctx snap p r p' _ _ _ h
      exact absurd h (by simp [parse_choice_list])
    · intro inner ctx node p r p' _ h
      exact absurd h (by simp [parse_rep_loop])
  | succ fuel ih =>
    obtain ⟨ihA, ihB, ihC, ihD, ihE⟩ := ih
    refine ⟨?_, ?_, ?_, ?_, ?_⟩
    -- parse_rule
    · intro name p r p' h
      simp only [parse_rule] at h
      cases hf : g.find_rule name with
      | none =>
        rw [hf] at h
        have := opt_pair_snd h
        rw [this]
        exact ⟨rfl, rfl⟩
      | some rule =>
        rw [hf] at h
        dsimp only at h
        have hne := find_rule_no_indent g hg name rule hf
        cases he : parse_expr g fuel rule.expr name p with
        | none => rw [he] at h; exact absurd h (by simp)
        | some q =>
          obtain ⟨res, p1⟩ := q
          have hB := ihB rule.expr name p res p1 hne he
          cases res with
          | none =>
            rw [he] at h
            have := opt_pair_snd h
            rw [this]
            exact hB
          | some node =>
            rw [he] at h
            have := opt_pair_snd h
            rw [this]
            exact hB
    -- parse_expr
    · intro e ctx p r p' hne h
      cases e with
      | Literal lit =>
        simp only [parse_expr] at h
        have := opt_pair_snd (by rw [← h] :
          some ((parse_literal lit ctx p).1, (parse_literal lit ctx p).2) = some (r, p'))
        rw [this]
        exact parse_literal_stack lit ctx p
      | Pattern pat =>
        simp only [parse_expr] at h
        have := opt_pair_snd (by rw [← h] :
          some ((parse_pattern pat ctx p).1, (parse_pattern pat ctx p).2) = some (r, p'))
        rw [this]
        exact parse_pattern_stack pat ctx p
      | RuleRef n =>
        simp only [parse_expr] at h
        exact ihA n p r p' h
      | Sequence items =>
        simp only [parse_expr] at h
        have hni : no_indent_list items = true := by simpa [no_indent_expr] using hne
        exact ihC items ctx (ASTNode.new ctx) p p r p' hni rfl rfl h
      | Choice cs =>
        simp only [parse_expr] at h
        have hni : no_indent_list cs = true := by simpa [no_indent_expr] using hne
        exact ihD cs ctx p p r p' hni rfl rfl h
      | ZeroOrMore inner =>
        simp only [parse_expr] at h
        have hni : no_indent_expr inner = true := by simpa [no_indent_expr] using hne
        exact ihE inner ctx (ASTNode.new "_repeat") p r p' hni h
      | OneOrMore inner =>
        simp only [parse_expr] at h
        have hni : no_indent_expr inner = true := by simpa [no_indent_expr] using hne
        cases he : parse_expr g fuel inner ctx p with
        | none => rw [he] at h; exact absurd h (by simp)
        | some q =>
          obtain ⟨res, p1⟩ := q
          have hB := ihB inner ctx p res p1 hni he
          cases res with
          | none =>
            rw [he] at h
            have := opt_pair_snd h
            rw [this]
            exact hB
          | some first =>
            rw [he] at h
            have hE := ihE inner ctx (rep_merge (ASTNode.new "_repeat") first) p1 r p' hni h
            exact ⟨hE.1.trans hB.1, hE.2.trans hB.2⟩
      | Optional inner =>
        simp only [parse_expr] at h
        have hni : no_indent_expr inner = true := by simpa [no_indent_expr] using hne
        cases he : parse_expr g fuel inner ctx p with
        | none => rw [he] at h; exact absurd h (by simp)
        | some q =>
          obtain ⟨res, p1⟩ := q
          have hB := ihB inner ctx p res p1 hni he
          cases res with
          | none =>
            rw [he] at h
            have := opt_pair_snd h
            rw [this]
            exact ⟨rfl, rfl⟩
          | some child =>
            rw [he] at h
            have := opt_pair_snd h
            rw [this]
            exact hB
      | Group inner =>
        simp only [parse_expr] at h
        have hni : no_indent_expr inner = true := by simpa [no_indent_expr] using hne
        cases he : parse_expr g fuel inner ctx p with
        | none => rw [he] at h; exact absurd h (by simp)
        | some q =>
          obtain ⟨res, p1⟩ := q
          have hB := ihB inner ctx p res p1 hni he
          cases res with
          | none =>
            rw [he] at h
            have := opt_pair_snd h
            rw [this]
            exact hB
          | some rr =>
            rw [he] at h
            have := opt_pair_snd h
            rw [this]
            exact hB
      | Indent => exact absurd hne (by simp [no_indent_expr])
      | Dedent => exact absurd hne (by simp [no_indent_expr])
      | Newline =>
        simp only [parse_expr] at h
        have := opt_pair_snd (by rw [← h] :
          some ((parse_newline ctx p).1, (parse_newline ctx p).2) = some (r, p'))
        rw [this]
        exact parse_newline_stack ctx p
      | SameIndent =>
        simp only [parse_expr] at h
        have := opt_pair_snd (by rw [← h] :
          some ((parse_same_indent ctx p).1, (parse_same_indent ctx p).2) = some (r, p'))
        rw [this]
        exact parse_same_indent_stack ctx p
    -- parse_seq_items
    · intro items ctx node snap p r p' hni hs1 hs2 h
      match items with
      | [] =>
        simp only [parse_seq_items] at h
        have := opt_pair_snd h
        rw [this]
        exact ⟨rfl, rfl⟩
      | item :: rest =>
        have hitem : no_indent_expr item = true := by
          simp [no_indent_list, Bool.and_eq_true] at hni
          exact hni.1
        have hrest : no_indent_list rest = true := by
          simp [no_indent_list, Bool.and_eq_true] at hni
          exact hni.2
        simp only [parse_seq_items] at h
        cases he : parse_expr g fuel item ctx p with
        | none => rw [he] at h; exact absurd h (by simp)
        | some q =>
          obtain ⟨res, p1⟩ := q
          have hB := ihB item ctx p res p1 hitem he
          cases res with
          | some child =>
            rw [he] at h
            have hC := ihC rest ctx (seq_merge node child) snap p1 r p' hrest
              (hs1.trans hB.1.symm) (hs2.trans hB.2.symm) h
            exact ⟨hC.1.trans hB.1, hC.2.trans hB.2⟩
          | none =>
            rw [he] at h
            have := opt_pair_snd h
            rw [this]
            exact ⟨hs1, hs2⟩
    -- parse_choice_list
    · intro cs ctx snap p r p' hni hs1 hs2 h
      match cs with
      | [] =>
        simp only [parse_choice_list] at h
        have := opt_pair_snd h
        rw [this]
        exact ⟨rfl, rfl⟩
      | c :: rest =>
        have hc : no_indent_expr c = true := by
          simp [no_indent_list, Bool.and_eq_true] at hni
          exact hni.1
        have hrest : no_indent_list rest = true := by
          simp [no_indent_list, Bool.and_eq_true] at hni
          exact hni.2
        simp only [parse_choice_list] at h
        cases he : parse_expr g fuel c ctx p with
        | none => rw [he] at h; exact absurd h (by simp)
        | some q =>
          obtain ⟨res, p1⟩ := q
          have hB := ihB c ctx p res p1 hc he
          cases res with
          | some child =>
            rw [he] at h
            have := opt_pair_snd h
            rw [this]
            exact hB
          | none =>
            rw [he] at h
            have hD := ihD rest ctx snap (restore_cursor snap p1) r p' hrest rfl rfl h
            refine ⟨hD.1.trans ?_, hD.2.trans ?_⟩
            · show snap.indent_stack = p.indent_stack
              exact hs1
            · show snap.pending_dedents = p.pending_dedents
              exact hs2
    -- parse_rep_loop
    · intro inner ctx node p r p' hni h
      simp only [parse_rep_loop] at h
      cases he : parse_expr g fuel inner ctx p with
      | none => rw [he] at h; exact absurd h (by simp)
      | some q =>
        obtain ⟨res, p1⟩ := q
        have hB := ihB inner ctx p res p1 hni he
        cases res with
        | some child =>
          rw [he] at h
          have hE := ihE inner ctx (rep_merge node child) p1 r p' hni h
          exact ⟨hE.1.trans hB.1, hE.2.trans hB.2⟩
        | none =>
          rw [he] at h
          have := opt_pair_snd h
          rw [this]
          exact ⟨rfl, rfl⟩

/-- C7 (amended): `Parser::parse` does not enforce the claimed final
condition in general (see the counterexample); it does hold whenever the
grammar is free of the `Indent`/`Dedent` terminals: then every parse
outcome — success or error — leaves `indent_stack = [0]` and
`pending_dedents = 0`, the initial values. -/
theorem C7_no_indent_final_state (g : InputGrammar) (hg : no_indent_grammar g = true)
    (fuel : Nat) (input : List Char) (res : Except ParseError ASTNode) (p' : Parser)
    (h : parse g fuel input = some (res, p')) :
    p'.indent_stack = [0] ∧ p'.pending_dedents = 0 := by
  unfold parse at h
  dsimp only at h
  cases hr : parse_rule g fuel g.start_rule (update_line_indent (Parser.new input)) with
  | none =>
    rw [hr] at h
    exact absurd h (by simp)
  | some q =>
    obtain ⟨result, p1⟩ := q
    rw [hr] at h
    dsimp only at h
    have hA := (parse_preserves_indent g hg fuel).1 g.start_rule
      (update_line_indent (Parser.new input)) result p1 hr
    have hstack : p1.indent_stack = [0] := by
      rw [hA.1]
      rfl
    have hpend : p1.pending_dedents = 0 := by
      rw [hA.2]
      rfl
    cases result with
    | some ast =>
      dsimp only at h
      by_cases hc : (skip_whitespace_no_newline p1).pos < (skip_whitespace_no_newline p1).input.length
      · rw [if_pos hc] at h
        have hp' := opt_pair_snd h
        rw [hp']
        have hrec := record_error_cursor "end of input" g.start_rule
          (skip_whitespace_no_newline p1)
        exact ⟨hrec.2.2.1.trans hstack, hrec.2.2.2.1.trans hpend⟩
      · rw [if_neg hc] at h
        have hp' := opt_pair_snd h
        rw [hp']
        exact ⟨hstack, hpend⟩
    | none =>
      dsimp only at h
      have hp' := opt_pair_snd h
      rw [hp']
      exact ⟨hstack, hpend⟩

/-- C7 witness: the indentation-free grammar `s := "a";` parsed on "a"
ends with the initial indent stack and no pending dedents. -/
theorem C7_no_indent_final_state_witness :
    no_indent_grammar g_plain = true ∧
    (parse g_plain 9 ['a']).map (fun r => (r.2.indent_stack, r.2.pending_dedents)) =
      some ([0], 0) := by
  refine ⟨by decide, ?_⟩
  cases hp : parse g_plain 9 ['a'] with
  | none =>
    have hs : (parse g_plain 9 ['a']).isSome = true := rfl
    rw [hp] at hs
    exact Bool.noConfusion hs
  | some r =>
    have hres := C7_no_indent_final_state g_plain (by decide) 9 ['a'] r.1 r.2 (by rw [hp])
    simp [hres.1, hres.2]

end Hensan
